import Mathlib

/-!
Verification of the event aggregation / caching engine of the
pokemon-meta-tracker repository (`src/app/src/app/api/events/*`,
`src/app/src/lib/types.ts`), via a shallow embedding of its TypeScript
functions into Lean.

Modelling conventions:
* JavaScript strings are Lean `String` / `List Char`; `toUpperCase`,
  `toLowerCase` are the per-character ASCII maps (the only characters the
  relevant code inspects are ASCII).
* Floating point distances are abstracted: the haversine function
  `calculateDistance` applied to the caller's origin is passed in as an
  arbitrary function `dist : String → String → ℚ` of the two coordinate
  strings; the merge logic only compares its result with the radius.
* Timestamps (`Date.now()`, ISO strings produced by `toISOString` and read
  back by `new Date(...).getTime()`) are modelled as integers (epoch ms):
  the ISO round trip is value preserving.
* The in-process file stores (`events-cache.json`, `scraper-results.json`)
  are explicit `Option` values threaded through the handlers.
-/

namespace PokemonMetaTracker

/-! ## Character and string helpers (ASCII models of the JS operations) -/

/-- Characters kept by `normalizeShop`: the regex class `[A-Z0-9]` of
`s.toUpperCase().replace(/[^A-Z0-9]/g, '')`. -/
def isShopChar (c : Char) : Bool :=
  (65 ≤ c.toNat && c.toNat ≤ 90) || (48 ≤ c.toNat && c.toNat ≤ 57)

/-- ASCII decimal digit, the JS regex class `\d`. -/
def isDigitChar (c : Char) : Bool :=
  48 ≤ c.toNat && c.toNat ≤ 57

/-- The JS regex class `\s` (whitespace); beyond ASCII whitespace it contains
the Unicode space separators used by JS regexes. -/
def isJsWs (c : Char) : Bool :=
  c = ' ' || c = '\t' || c = '\n' || (c.val ≥ 11 && c.val ≤ 13) ||
  c.val = 0xa0 || c.val = 0x1680 || (c.val ≥ 0x2000 && c.val ≤ 0x200a) ||
  c.val = 0x2028 || c.val = 0x2029 || c.val = 0x202f || c.val = 0x205f ||
  c.val = 0x3000 || c.val = 0xfeff

/-- `normalizeShop` of `combined/route.ts` (and identically `route.ts`,
`refresh/route.ts`):
`s.toUpperCase().replace(/[^A-Z0-9]/g, '').substring(0, 15)`. -/
def normalizeShop (s : String) : String :=
  ⟨((s.data.map Char.toUpper).filter isShopChar).take 15⟩

/-- Does the needle occur at the front of the haystack? -/
def atFront : List Char → List Char → Bool
  | [], _ => true
  | _ :: _, [] => false
  | n :: ns, c :: cs => n = c && atFront ns cs

/-- `String.prototype.includes`: substring occurrence test. -/
def hasSubstr (needle : List Char) : List Char → Bool
  | [] => needle.isEmpty
  | c :: cs => atFront needle (c :: cs) || hasSubstr needle cs

/-- `normalizeType` of `combined/route.ts`:
`if (t.toLowerCase().includes('cup')) return 'League Cup'; return 'League Challenge'`. -/
def normalizeType (t : String) : String :=
  if hasSubstr ['c', 'u', 'p'] (t.data.map Char.toLower) then "League Cup"
  else "League Challenge"

/-- `normalizeType` of `refresh/route.ts`, which falls through to the raw
type text when neither substring occurs. -/
def normalizeTypeRefresh (t : String) : String :=
  if hasSubstr ['c', 'u', 'p'] (t.data.map Char.toLower) then "League Cup"
  else if hasSubstr ['c', 'h', 'a', 'l', 'l', 'e', 'n', 'g', 'e']
      (t.data.map Char.toLower) then "League Challenge"
  else t

/-! ## `parseScraperDate`

The regex
`/(January|…|December)\s+(\d{1,2}),\s*(\d{4})/i` is unanchored and
case-insensitive: the searcher below tries every start position from the
left, and at each position matches a month name case-insensitively, one or
more whitespace characters, a greedy 1–2 digit day (because `\s`/`\d` are
disjoint and `,` is neither, backtracking cannot rescue a failed greedy
choice, so the deterministic functions below are exact), a comma, optional
whitespace and four digits.  `match[1]` is the text as it appears in the
input, so the month table lookup `months[match[1]]` misses unless the
month is capitalized exactly; a miss interpolates `undefined` into the
result string. -/

/-- The month table of `parseScraperDate`, in the regex alternation order. -/
def monthsTable : List (String × String) :=
  [("January", "01"), ("February", "02"), ("March", "03"), ("April", "04"),
   ("May", "05"), ("June", "06"), ("July", "07"), ("August", "08"),
   ("September", "09"), ("October", "10"), ("November", "11"),
   ("December", "12")]

/-- Case-insensitive (ASCII) match of a literal pattern against the front of
the input; returns the matched input text and the remainder. -/
def stripCi : List Char → List Char → Option (List Char × List Char)
  | [], s => some ([], s)
  | _ :: _, [] => none
  | p :: ps, c :: cs =>
    if p.toLower = c.toLower then
      match stripCi ps cs with
      | some (m, r) => some (c :: m, r)
      | none => none
    else none

/-- First month name of `monthsTable` matching at the front of the input. -/
def monthAtAux : List (String × String) → List Char → Option (List Char × List Char)
  | [], _ => none
  | (name, _) :: rest, s =>
    match stripCi name.data s with
    | some (m, r) => some (m, r)
    | none => monthAtAux rest s

def monthAt (s : List Char) : Option (List Char × List Char) :=
  monthAtAux monthsTable s

/-- Attempt the whole pattern at the current position; returns
(month text as matched, day digits, year digits). -/
def matchAt (s : List Char) : Option (List Char × List Char × List Char) :=
  match monthAt s with
  | none => none
  | some (montext, r1) =>
    let ws := r1.takeWhile isJsWs
    if ws.length = 0 then none
    else
      let r2 := r1.dropWhile isJsWs
      let ds := r2.takeWhile isDigitChar
      if ds.length = 1 || ds.length = 2 then
        let r3 := r2.drop ds.length
        match r3 with
        | ',' :: r4 =>
          let r5 := r4.dropWhile isJsWs
          let ys := r5.take 4
          if ys.length = 4 && ys.all isDigitChar then
            some (montext, ds, ys)
          else none
        | _ => none
      else none

/-- Left-to-right search of `String.prototype.match` for an unanchored
pattern: first position where `matchAt` succeeds. -/
def findMonthPattern : List Char → Option (List Char × List Char × List Char)
  | [] => none
  | c :: rest =>
    match matchAt (c :: rest) with
    | some r => some r
    | none => findMonthPattern rest

/-- The case-sensitive record lookup `months[match[1]]`; a miss produces
`undefined`, which the template literal interpolates as the text
`"undefined"`. -/
def monthLookup (montext : String) : String :=
  ((monthsTable.filter (fun p => p.fst = montext)).head?.map Prod.snd).getD
    "undefined"

/-- `'d'.padStart(2, '0')` for the 1–2 digit day capture. -/
def padStart2 (s : String) : String :=
  if s.length ≥ 2 then s else "0" ++ s

/-- `parseScraperDate` of `combined/route.ts` (identical in `route.ts` and
`refresh/route.ts`): regex search, then
`` `${match[3]}-${months[match[1]]}-${match[2].padStart(2, '0')}` ``. -/
def parseScraperDate (dateStr : String) : Option String :=
  match findMonthPattern dateStr.data with
  | none => none
  | some (montext, ds, ys) =>
    some (⟨ys⟩ ++ "-" ++ monthLookup ⟨montext⟩ ++ "-" ++ padStart2 ⟨ds⟩)

end PokemonMetaTracker

namespace PokemonMetaTracker

/-! ## C10: properties of `normalizeShop` -/

theorem toUpper_fix_of_isShopChar (c : Char) (h : isShopChar c = true) :
    c.toUpper = c := by
  unfold isShopChar at h
  simp only [Bool.or_eq_true, Bool.and_eq_true, decide_eq_true_eq] at h
  unfold Char.toUpper
  rw [if_neg]
  omega

theorem normalizeShop_data_isShopChar (s : String) :
    ∀ c ∈ (normalizeShop s).data, isShopChar c = true := by
  intro c hc
  have hc' : c ∈ ((s.data.map Char.toUpper).filter isShopChar) :=
    List.mem_of_mem_take hc
  exact (List.mem_filter.mp hc').2

theorem normalizeShop_data_len (s : String) :
    (normalizeShop s).data.length ≤ 15 :=
  List.length_take_le 15 ((s.data.map Char.toUpper).filter isShopChar)

/-- C10: every character of `normalizeShop s` is in `A`-`Z` or `0`-`9`, the
result has length at most 15, and `normalizeShop` is idempotent. -/
theorem normalizeShop_alnum_short_idem (s : String) :
    (∀ c ∈ (normalizeShop s).data, isShopChar c = true) ∧
    (normalizeShop s).length ≤ 15 ∧
    normalizeShop (normalizeShop s) = normalizeShop s := by
  refine ⟨normalizeShop_data_isShopChar s, ?_, ?_⟩
  · show (normalizeShop s).data.length ≤ 15
    exact normalizeShop_data_len s
  · show (⟨((((normalizeShop s).data.map Char.toUpper)).filter isShopChar).take 15⟩ : String)
        = normalizeShop s
    have hmap : (normalizeShop s).data.map Char.toUpper = (normalizeShop s).data := by
      refine (List.map_congr_left ?_).trans (List.map_id _)
      intro c hc
      exact toUpper_fix_of_isShopChar c (normalizeShop_data_isShopChar s c hc)
    rw [hmap]
    have hfil : (normalizeShop s).data.filter isShopChar = (normalizeShop s).data :=
      List.filter_eq_self.mpr (normalizeShop_data_isShopChar s)
    rw [hfil, List.take_of_length_le (normalizeShop_data_len s)]

end PokemonMetaTracker

namespace PokemonMetaTracker

/-! ## C7: shape of `parseScraperDate` results -/

/-- Value of an ASCII digit character. -/
def digitVal (c : Char) : Nat := c.toNat - 48

def specIsLeapYear (y : Nat) : Bool :=
  (y % 4 = 0 && decide (y % 100 ≠ 0)) || y % 400 = 0

def specDaysInMonth (y m : Nat) : Nat :=
  if m = 2 then (if specIsLeapYear y then 29 else 28)
  else if m = 4 || m = 6 || m = 9 || m = 11 then 30 else 31

/-- Modelled from the spec: a "well-formed ISO calendar date" `YYYY-MM-DD`
(four digits, dash, two digits, dash, two digits, with a month in 1..12 and
a day within that month's length, Gregorian leap rule). -/
def specWellFormedISODate (s : String) : Bool :=
  match s.data with
  | [y1, y2, y3, y4, h1, m1, m2, h2, d1, d2] =>
    isDigitChar y1 && isDigitChar y2 && isDigitChar y3 && isDigitChar y4 &&
    h1 = '-' && h2 = '-' &&
    isDigitChar m1 && isDigitChar m2 && isDigitChar d1 && isDigitChar d2 &&
    (let y := ((digitVal y1 * 10 + digitVal y2) * 10 + digitVal y3) * 10 +
        digitVal y4
     let m := digitVal m1 * 10 + digitVal m2
     let d := digitVal d1 * 10 + digitVal d2
     1 ≤ m && m ≤ 12 && 1 ≤ d && d ≤ specDaysInMonth y m)
  | _ => false

theorem matchAt_shape (s mt ds ys : List Char)
    (h : matchAt s = some (mt, ds, ys)) :
    (ds.length = 1 ∨ ds.length = 2) ∧ ds.all isDigitChar = true ∧
    ys.length = 4 ∧ ys.all isDigitChar = true := by
  unfold matchAt at h
  split at h
  · exact absurd h (by simp)
  · simp only [] at h
    split at h
    · exact absurd h (by simp)
    · split at h
      · split at h
        · split at h
          · rename_i hws hlen12 r3 r4 hr3 hys
            simp only [Option.some.injEq, Prod.mk.injEq] at h
            obtain ⟨-, hds, hys'⟩ := h
            subst hds
            subst hys'
            simp only [Bool.or_eq_true, decide_eq_true_eq] at hlen12
            simp only [Bool.and_eq_true, decide_eq_true_eq] at hys
            exact ⟨hlen12, List.all_takeWhile, hys.1, hys.2⟩
          · exact absurd h (by simp)
        · exact absurd h (by simp)
      · exact absurd h (by simp)

theorem findMonthPattern_shape (s mt ds ys : List Char)
    (h : findMonthPattern s = some (mt, ds, ys)) :
    (ds.length = 1 ∨ ds.length = 2) ∧ ds.all isDigitChar = true ∧
    ys.length = 4 ∧ ys.all isDigitChar = true := by
  induction s with
  | nil => exact absurd h (by simp [findMonthPattern])
  | cons c rest ih =>
    unfold findMonthPattern at h
    split at h
    · rename_i r hr
      cases h
      exact matchAt_shape _ _ _ _ hr
    · exact ih h

theorem padStart2_shape (ds : List Char) (h12 : ds.length = 1 ∨ ds.length = 2)
    (hdig : ds.all isDigitChar = true) :
    (padStart2 ⟨ds⟩).length = 2 ∧ (padStart2 ⟨ds⟩).data.all isDigitChar = true := by
  unfold padStart2
  rcases h12 with h1 | h2
  · rw [if_neg]
    · refine ⟨?_, ?_⟩
      · show ("0" ++ (⟨ds⟩ : String)).data.length = 2
        rw [String.data_append]
        simp [h1]
      · show (("0" ++ (⟨ds⟩ : String)).data.all isDigitChar) = true
        rw [String.data_append]
        simp only [List.all_append, hdig, Bool.and_true]
        decide
    · show ¬ (String.mk ds).length ≥ 2
      show ¬ ds.length ≥ 2
      omega
  · rw [if_pos]
    · exact ⟨h2, hdig⟩
    · show ds.length ≥ 2
      omega

theorem monthLookup_mem_or_undef (t : String) :
    monthLookup t ∈ monthsTable.map Prod.snd ∨ monthLookup t = "undefined" := by
  unfold monthLookup
  cases hh : (monthsTable.filter (fun p => p.fst = t)).head? with
  | none => right; rfl
  | some x =>
    left
    have hx : x ∈ monthsTable.filter (fun p => p.fst = t) := by
      obtain ⟨ys', hys'⟩ := List.head?_eq_some_iff.mp hh
      rw [hys']
      exact List.mem_cons_self _ _
    have hx' : x ∈ monthsTable := (List.mem_filter.mp hx).1
    simpa using List.mem_map_of_mem Prod.snd hx'

/-- C7 (amended): every non-null result of `parseScraperDate` has the shape
`year-mon-day` with a four-digit year and two-digit day, where `mon` is
either one of the twelve month codes (canonically capitalized month matched)
or the literal text `undefined` (month matched with non-canonical casing);
nothing constrains the day to exist in that month's calendar. -/
theorem parseScraperDate_shape (s r : String)
    (h : parseScraperDate s = some r) :
    ∃ y m d : String,
      r = y ++ "-" ++ m ++ "-" ++ d ∧
      y.length = 4 ∧ y.data.all isDigitChar = true ∧
      d.length = 2 ∧ d.data.all isDigitChar = true ∧
      (m ∈ monthsTable.map Prod.snd ∨ m = "undefined") := by
  unfold parseScraperDate at h
  split at h
  · exact absurd h (by simp)
  · rename_i montext ds ys hfind
    cases h
    obtain ⟨hds12, hdsdig, hys4, hysdig⟩ := findMonthPattern_shape _ _ _ _ hfind
    obtain ⟨hp1, hp2⟩ := padStart2_shape ds hds12 hdsdig
    exact ⟨⟨ys⟩, monthLookup ⟨montext⟩, padStart2 ⟨ds⟩, rfl, hys4, hysdig,
      hp1, hp2, monthLookup_mem_or_undef _⟩

/-- Witness for `parseScraperDate_shape` at a concrete parseable input. -/
theorem parseScraperDate_shape_witness :
    ∃ y m d : String,
      "2026-01-13" = y ++ "-" ++ m ++ "-" ++ d ∧
      y.length = 4 ∧ y.data.all isDigitChar = true ∧
      d.length = 2 ∧ d.data.all isDigitChar = true ∧
      (m ∈ monthsTable.map Prod.snd ∨ m = "undefined") :=
  parseScraperDate_shape "Tuesday, January 13, 2026" "2026-01-13" (by decide)

/-- C7 counterexample: on a fully-capitalized month the regex still matches
(case-insensitive flag) but the case-sensitive month table lookup misses, so
the literal text `undefined` is interpolated; and a day out of calendar
range is passed through unvalidated.  Both outputs are non-null strings that
are not well-formed ISO calendar dates. -/
theorem parseScraperDate_not_calendar_cex :
    parseScraperDate "JANUARY 13, 2026" = some "2026-undefined-13" ∧
    specWellFormedISODate "2026-undefined-13" = false ∧
    parseScraperDate "February 31, 2026" = some "2026-02-31" ∧
    specWellFormedISODate "2026-02-31" = false :=
  ⟨by decide, by decide, by decide, by decide⟩

end PokemonMetaTracker

namespace PokemonMetaTracker

/-! ## Data model

`ScrapedEvent` is the element shape of `scraper-results.json`
(`readScraperResults` in `types.ts`); `PokedataEvent` is the loosely typed
remote record (the union of the optional fields the three routes read);
`LocalEvent` is the response event of `combined/route.ts`. -/

structure ScrapedEvent where
  id : String
  type : String
  name : String
  date : String
  time : String
  shop : String
  address : String
  city : String
  state : String
  country : String
deriving DecidableEq, Repr

structure PokedataEvent where
  guid : Option String
  type : String
  name : String
  date : String
  whenAt : Option String
  shop : String
  city : Option String
  state : Option String
  country : Option String
  country_code : Option String
  street_address : Option String
  address : Option String
  cost : Option String
  pokemon_url : Option String
  juniors : Option String
  seniors : Option String
  masters : Option String
  latitude : Option String
  longitude : Option String
  distance : Option ℚ
deriving DecidableEq, Repr

structure LocalEvent where
  id : String
  type : String
  name : String
  date : String
  time : String
  city : String
  state : String
  country : String
  shop : String
  address : String
  cost : String
  registrationUrl : String
  hasJuniors : Bool
  hasSeniors : Bool
  hasMasters : Bool
  distance : Option ℚ
  source : Option String
deriving DecidableEq, Repr

/-- JS `a || b` on a possibly-absent string: the empty string is falsy. -/
def jsOr (o : Option String) (d : String) : String :=
  match o with
  | some s => if s = "" then d else s
  | none => d

/-- JS `a || b` on a present string. -/
def jsOrS (s d : String) : String :=
  if s = "" then d else s

/-- `.replace(/\s+/g, '-')`: each maximal whitespace run becomes one dash. -/
def squashWsAux : List Char → Bool → List Char
  | [], _ => []
  | c :: cs, prevWs =>
    if isJsWs c then
      (if prevWs then squashWsAux cs true else '-' :: squashWsAux cs true)
    else c :: squashWsAux cs false

def squashWs (s : String) : String := ⟨squashWsAux s.data false⟩

def digitsVal (l : List Char) : Nat :=
  l.foldl (fun a c => a * 10 + digitVal c) 0

/-- JS `parseInt` (decimal): leading whitespace, optional sign, leading
digit run; `NaN` (`none`) when no digits follow. -/
def jsParseInt (s : String) : Option Int :=
  match s.data.dropWhile isJsWs with
  | '-' :: rest =>
    let d := rest.takeWhile isDigitChar
    if d.length = 0 then none else some (-(digitsVal d : Int))
  | '+' :: rest =>
    let d := rest.takeWhile isDigitChar
    if d.length = 0 then none else some ((digitsVal d : Int))
  | t =>
    let d := t.takeWhile isDigitChar
    if d.length = 0 then none else some ((digitsVal d : Int))

/-- `parseInt(x || '0') > 0` (`NaN > 0` is false). -/
def jsParseIntGtZero (o : Option String) : Bool :=
  match jsParseInt (jsOr o "0") with
  | some n => decide (n > 0)
  | none => false

/-- `e.when?.split(' ')[1]?.slice(0, 5) || ''`. -/
def pokeTime (whenAt : Option String) : String :=
  match whenAt with
  | none => ""
  | some w =>
    match (w.splitOn " ").get? 1 with
    | none => ""
    | some t => ⟨t.data.take 5⟩

/-- `e.when?.split(' ')[0] || e.date` (refresh route `displayDate`). -/
def displayDateOf (whenAt : Option String) (date : String) : String :=
  match whenAt with
  | none => date
  | some w => jsOrS ((w.splitOn " ").headD "") date

/-! ## ThirdPartyClient: `fetchPokedataEvents`

The two category requests run under `Promise.all` inside one `try`; a
network failure of either request rejects the whole `Promise.all`, and a
non-success response makes the corresponding `res.json()` throw, so the
single `catch` returns `[]` for everything.  An outcome is `Except.ok`
with the parsed records, or `Except.error` for a rejected fetch /
unparseable body. -/

def fetchPokedataEvents (cupsResult challengesResult : Except Unit (List PokedataEvent)) :
    List PokedataEvent :=
  match cupsResult, challengesResult with
  | Except.ok cups, Except.ok challenges => cups ++ challenges
  | _, _ => []

/-! ## Merger: `buildCombinedData` of `combined/route.ts`

`dist lat lng` stands for
`calculateDistance(userLat, userLng, parseFloat(lat), parseFloat(lng))`
(the caller's origin is folded into the function), and `dv date` stands
for `new Date(date).getTime()` (`none` for an invalid date, whose `NaN`
comparator result the engine treats as 0). -/

/-- Lines 145-150: keep events with (truthy) coordinates within the radius
and stamp their `distance`. -/
def pokeNearby (dist : String → String → ℚ) (maxRadius : ℚ)
    (pokeEvents : List PokedataEvent) : List PokedataEvent :=
  pokeEvents.filterMap fun e =>
    match e.latitude, e.longitude with
    | some lat, some lng =>
      if lat = "" || lng = "" then none
      else if dist lat lng ≤ maxRadius then
        some { e with distance := some (dist lat lng) }
      else none
    | _, _ => none

def pokeKey (e : PokedataEvent) : String :=
  e.date ++ "-" ++ normalizeShop e.shop

/-- Lines 153-159: drop pokedata records repeating a `date-shop` key. -/
def dedupPoke : List PokedataEvent → List String → List PokedataEvent
  | [], _ => []
  | e :: es, seen =>
    if pokeKey e ∈ seen then dedupPoke es seen
    else e :: dedupPoke es (pokeKey e :: seen)

/-- The shared seen-set insertion pattern of the two `forEach` loops:
normalize a record to its dedup key and output event (or `none` to drop
it), skip seen keys, record new ones. -/
def dedupInsert {α β : Type} (norm : α → Option (String × β)) :
    List α → List String → List β × List String
  | [], seen => ([], seen)
  | a :: as, seen =>
    match norm a with
    | none => dedupInsert norm as seen
    | some (k, b) =>
      if k ∈ seen then dedupInsert norm as seen
      else
        let r := dedupInsert norm as (k :: seen)
        (b :: r.1, r.2)

def scraperToLocal (e : ScrapedEvent) (nd ty : String) : LocalEvent :=
  { id := if e.id = "" then squashWs ("scraper-" ++ e.shop ++ "-" ++ nd) else e.id
    type := ty
    name := e.name
    date := nd
    time := jsOrS e.time ""
    city := jsOrS e.city ""
    state := jsOrS e.state "CA"
    country := jsOrS e.country "US"
    shop := e.shop
    address := jsOrS e.address ""
    cost := ""
    registrationUrl := ""
    hasJuniors := true
    hasSeniors := true
    hasMasters := true
    distance := none
    source := some "pokemon.com" }

/-- Lines 167-174: a scraper record's dedup key and event (dropped when its
date does not parse). -/
def scraperNorm (e : ScrapedEvent) : Option (String × LocalEvent) :=
  match parseScraperDate e.date with
  | none => none
  | some nd =>
    some (nd ++ "-" ++ normalizeShop e.shop ++ "-" ++ normalizeType e.type,
      scraperToLocal e nd (normalizeType e.type))

def pokeToLocal (e : PokedataEvent) (ty : String) : LocalEvent :=
  { id := jsOr e.guid (squashWs ("pokedata-" ++ e.shop ++ "-" ++ e.date))
    type := ty
    name := e.name
    date := e.date
    time := pokeTime e.whenAt
    city := jsOr e.city ""
    state := jsOr e.state "CA"
    country := jsOr e.country_code "US"
    shop := e.shop
    address := jsOr e.street_address (jsOr e.address "")
    cost := jsOr e.cost ""
    registrationUrl := jsOr e.pokemon_url ""
    hasJuniors := jsParseIntGtZero e.juniors
    hasSeniors := jsParseIntGtZero e.seniors
    hasMasters := jsParseIntGtZero e.masters
    distance := e.distance
    source := some "pokedata.ovh" }

/-- Lines 197-201: a pokedata record's dedup key and event. -/
def pokeNorm (e : PokedataEvent) : Option (String × LocalEvent) :=
  some (e.date ++ "-" ++ normalizeShop e.shop ++ "-" ++ normalizeType e.type,
    pokeToLocal e (normalizeType e.type))

/-- The derived dedup key of an output event, as rebuilt from its fields. -/
def keyOf (e : LocalEvent) : String :=
  e.date ++ "-" ++ normalizeShop e.shop ++ "-" ++ e.type

/-- The comparator of lines 228-235; its value only matters by sign.  An
invalid date gives `NaN`, which the sort machinery treats as 0 without
reaching the distance branch. -/
def cmpEvents (dv : String → Option Int) (a b : LocalEvent) : ℚ :=
  match dv a.date, dv b.date with
  | some x, some y =>
    if x - y ≠ 0 then ((x - y : Int) : ℚ)
    else
      match a.distance, b.distance with
      | some da, some db => da - db
      | _, _ => 0
  | _, _ => 0

/-- One step of a stable insertion sort on the reversed prefix: the new
element walks left past exactly the elements comparing greater than it. -/
def insRev {α : Type} (cmp : α → α → ℚ) (x : α) : List α → List α
  | [] => [x]
  | y :: r => if cmp y x > 0 then y :: insRev cmp x r else x :: y :: r

def jsSortRev {α : Type} (cmp : α → α → ℚ) (l : List α) : List α :=
  l.foldl (fun r x => insRev cmp x r) []

/-- `Array.prototype.sort` with a user comparator, modelled as the stable
insertion sort (the ECMAScript-required stable order; V8's TimSort reduces
to binary insertion on these sizes). -/
def jsSort {α : Type} (cmp : α → α → ℚ) (l : List α) : List α :=
  (jsSortRev cmp l).reverse

/-- Lines 163-225: the pre-sort merged list (scraper events first, then
deduplicated nearby pokedata events, one shared seen-set). -/
def combinedPreSort (dist : String → String → ℚ) (maxRadius : ℚ)
    (scraperEvents : List ScrapedEvent) (pokeEvents : List PokedataEvent) :
    List LocalEvent :=
  let uniquePokeEvents := dedupPoke (pokeNearby dist maxRadius pokeEvents) []
  let s := dedupInsert scraperNorm scraperEvents []
  let p := dedupInsert pokeNorm uniquePokeEvents s.2
  s.1 ++ p.1

/-- `buildCombinedData` (events part), lines 136-235. -/
def buildCombinedData (dv : String → Option Int) (dist : String → String → ℚ)
    (maxRadius : ℚ) (scraperEvents : List ScrapedEvent)
    (pokeEvents : List PokedataEvent) : List LocalEvent :=
  jsSort (cmpEvents dv) (combinedPreSort dist maxRadius scraperEvents pokeEvents)

structure CacheSummary where
  totalEvents : Nat
  fromScraper : Nat
  fromPokedata : Nat
  uniqueStores : Nat
deriving DecidableEq, Repr

/-- Lines 237-248: the response summary. -/
def buildSummary (events : List LocalEvent) : CacheSummary :=
  { totalEvents := events.length
    fromScraper := (events.filter (fun e => e.source = some "pokemon.com")).length
    fromPokedata := (events.filter (fun e => e.source = some "pokedata.ovh")).length
    uniqueStores := (events.map (fun e => e.shop)).dedup.length }

end PokemonMetaTracker

namespace PokemonMetaTracker

/-! ## C2: sub-fetch failure isolation -/

def c2CupsEvent : PokedataEvent :=
  { guid := some "g1", type := "League Cup", name := "Cup A",
    date := "2026-01-13", whenAt := some "2026-01-13 17:30:00",
    shop := "CARD SHOP", city := some "San Mateo", state := some "CA",
    country := some "US", country_code := some "US",
    street_address := some "1 Main St", address := none, cost := some "10",
    pokemon_url := some "u", juniors := some "5", seniors := some "5",
    masters := some "5", latitude := some "37.5", longitude := some "-122.3",
    distance := none }

/-- C2 counterexample: with the cups request succeeding (one in-radius
record) and the challenges request failing, the fetch returns `[]` — the
successful category's records are discarded, not preserved; had the cups
list been returned, the merged output would have carried its event. -/
theorem fetchPokedata_outage_voids_other_cex :
    fetchPokedataEvents (Except.ok [c2CupsEvent]) (Except.error ()) = [] ∧
    (buildSummary (buildCombinedData (fun _ => some 0) (fun _ _ => 8) 50 []
        (fetchPokedataEvents (Except.ok [c2CupsEvent]) (Except.error ())))).fromPokedata
      = 0 ∧
    (buildSummary (buildCombinedData (fun _ => some 0) (fun _ _ => 8) 50 []
        [c2CupsEvent])).fromPokedata = 1 :=
  ⟨rfl, by decide, by decide⟩

/-- C2 (amended): the two category requests are not isolated from each
other — a failure (network rejection or unparseable non-success response)
of either sub-fetch makes the whole fetch return the empty array, voiding
the successful category as well; only when both succeed are the two lists
concatenated. -/
theorem fetchPokedataEvents_all_or_nothing :
    (∀ cups chs : Except Unit (List PokedataEvent),
      cups.isOk = false ∨ chs.isOk = false → fetchPokedataEvents cups chs = []) ∧
    (∀ cups chs : List PokedataEvent,
      fetchPokedataEvents (Except.ok cups) (Except.ok chs) = cups ++ chs) := by
  constructor
  · intro cups chs h
    cases cups with
    | error e => rfl
    | ok a =>
      cases chs with
      | error e => rfl
      | ok b => simp [Except.isOk, Except.toBool] at h
  · intro cups chs
    rfl

/-- Witness for `fetchPokedataEvents_all_or_nothing` at concrete outcomes. -/
theorem fetchPokedataEvents_all_or_nothing_witness :
    fetchPokedataEvents (Except.ok [c2CupsEvent]) (Except.error ()) = [] ∧
    fetchPokedataEvents (Except.ok [c2CupsEvent]) (Except.ok []) = [c2CupsEvent] :=
  ⟨fetchPokedataEvents_all_or_nothing.1 (Except.ok [c2CupsEvent]) (Except.error ())
      (Or.inr rfl),
    fetchPokedataEvents_all_or_nothing.2 [c2CupsEvent] []⟩

end PokemonMetaTracker

namespace PokemonMetaTracker

/-! ## CombinedCacheStore: `CacheData` and `isCacheValid` (`types.ts`)

`lastUpdated`/`lastScraperRun` are epoch milliseconds (the ISO string
round trip of `toISOString` / `new Date(...).getTime()` preserves the
value). -/

structure CachedEvent where
  source : String
  type : String
  name : String
  date : String
  displayDate : String
  time : String
  shop : String
  address : String
  city : String
  state : String
  country : String
  distance : Option ℚ
  latitude : Option String
  longitude : Option String
deriving DecidableEq, Repr

structure CacheLocation where
  lat : ℚ
  lng : ℚ
  radius : ℚ
deriving DecidableEq, Repr

structure CacheData where
  lastUpdated : Int
  lastScraperRun : Option Int
  location : CacheLocation
  summary : CacheSummary
  events : List CachedEvent
deriving DecidableEq, Repr

def CACHE_TTL_MS : Int := 60 * 60 * 1000

/-- `isCacheValid` of `types.ts`: no document means invalid, otherwise
`now - lastUpdated < CACHE_TTL_MS`. -/
def isCacheValid (cache : Option CacheData) (now : Int) : Bool :=
  match cache with
  | none => false
  | some c => decide (now - c.lastUpdated < CACHE_TTL_MS)

/-! ## `buildCombinedCache` of `refresh/route.ts` (lines 113-210) -/

def keyOfCached (e : CachedEvent) : String :=
  e.date ++ "-" ++ normalizeShop e.shop ++ "-" ++ e.type

/-- Lines 146-167: scraper record to cached event (refresh variant:
`normalizeType` falls through, `address` has no default). -/
def scraperNormR (e : ScrapedEvent) : Option (String × CachedEvent) :=
  match parseScraperDate e.date with
  | none => none
  | some nd =>
    some (nd ++ "-" ++ normalizeShop e.shop ++ "-" ++ normalizeTypeRefresh e.type,
      { source := "pokemon.com"
        type := normalizeTypeRefresh e.type
        name := e.name
        date := nd
        displayDate := e.date
        time := jsOrS e.time ""
        shop := e.shop
        address := e.address
        city := jsOrS e.city ""
        state := jsOrS e.state "CA"
        country := jsOrS e.country "US"
        distance := none
        latitude := none
        longitude := none })

/-- Lines 170-191: pokedata record to cached event (keeps coordinates). -/
def pokeNormR (e : PokedataEvent) : Option (String × CachedEvent) :=
  some (e.date ++ "-" ++ normalizeShop e.shop ++ "-" ++ normalizeTypeRefresh e.type,
    { source := "pokedata.ovh"
      type := normalizeTypeRefresh e.type
      name := e.name
      date := e.date
      displayDate := displayDateOf e.whenAt e.date
      time := pokeTime e.whenAt
      shop := e.shop
      address := jsOr e.address ""
      city := jsOr e.city ""
      state := jsOr e.state "CA"
      country := jsOr e.country "US"
      distance := e.distance
      latitude := e.latitude
      longitude := e.longitude })

/-- Line 194: `sort((a, b) => new Date(a.date).getTime() - new Date(b.date).getTime())`. -/
def cmpDateOnly (dv : String → Option Int) (a b : CachedEvent) : ℚ :=
  match dv a.date, dv b.date with
  | some x, some y => ((x - y : Int) : ℚ)
  | _, _ => 0

def buildSummaryCached (events : List CachedEvent) : CacheSummary :=
  { totalEvents := events.length
    fromScraper := (events.filter (fun e => e.source = "pokemon.com")).length
    fromPokedata := (events.filter (fun e => e.source = "pokedata.ovh")).length
    uniqueStores := (events.map (fun e => e.shop)).dedup.length }

/-- The refresh route's fixed origin and radius (USER_LAT/USER_LNG/MAX_RADIUS). -/
def refreshLocation : CacheLocation :=
  { lat := 37.52, lng := -122.2758, radius := 100 }

/-- The pre-sort merged list of `buildCombinedCache`. -/
def cachePreSort (dist : String → String → ℚ)
    (scraperEvents : List ScrapedEvent) (pokeEvents : List PokedataEvent) :
    List CachedEvent :=
  let uniquePokeEvents := dedupPoke (pokeNearby dist 100 pokeEvents) []
  let s := dedupInsert scraperNormR scraperEvents []
  let p := dedupInsert pokeNormR uniquePokeEvents s.2
  s.1 ++ p.1

/-- `buildCombinedCache`: merge the persisted scraper snapshot with the
fresh pokedata fetch, stamp `lastUpdated := now` and carry the existing
cache's `lastScraperRun` forward (`existingCache?.lastScraperRun || null`). -/
def buildCombinedCache (now : Int) (dv : String → Option Int)
    (dist : String → String → ℚ) (existingCache : Option CacheData)
    (scraperFile : Option (List ScrapedEvent))
    (pokeFetched : List PokedataEvent) : CacheData :=
  let combined := jsSort (cmpDateOnly dv) (cachePreSort dist (scraperFile.getD []) pokeFetched)
  { lastUpdated := now
    lastScraperRun :=
      match existingCache with
      | some c => c.lastScraperRun
      | none => none
    location := refreshLocation
    summary := buildSummaryCached combined
    events := combined }

/-! ## The refresh route handlers (`refresh/route.ts` GET/POST) -/

structure RefreshState where
  cache : Option CacheData
  scraperFile : Option (List ScrapedEvent)
deriving DecidableEq, Repr

inductive RefreshResult where
  | unauthorized
  | ok (summary : CacheSummary)
deriving DecidableEq, Repr

/-- GET (lines 212-250): credential check
(`secret !== CRON_SECRET && NODE_ENV !== 'development'` rejects with 401
before any work), then rebuild and overwrite the cache unconditionally. -/
def refreshGET (secret : Option String) (cronSecret : String) (isDev : Bool)
    (now : Int) (dv : String → Option Int) (dist : String → String → ℚ)
    (st : RefreshState) (pokeFetched : List PokedataEvent) :
    RefreshResult × RefreshState :=
  if secret ≠ some cronSecret ∧ ¬isDev then (RefreshResult.unauthorized, st)
  else
    let cd := buildCombinedCache now dv dist st.cache st.scraperFile pokeFetched
    (RefreshResult.ok cd.summary, { st with cache := some cd })

/-- POST (lines 253-288): credential check, then persist the supplied
scraper batch (when the body carries one) via `writeScraperResults`, then
rebuild and overwrite the cache unconditionally. -/
def refreshPOST (secret : Option String) (cronSecret : String) (isDev : Bool)
    (now : Int) (dv : String → Option Int) (dist : String → String → ℚ)
    (st : RefreshState) (body : Option (List ScrapedEvent))
    (pokeFetched : List PokedataEvent) : RefreshResult × RefreshState :=
  if secret ≠ some cronSecret ∧ ¬isDev then (RefreshResult.unauthorized, st)
  else
    let st1 : RefreshState :=
      match body with
      | some evs => { st with scraperFile := some evs }
      | none => st
    let cd := buildCombinedCache now dv dist st1.cache st1.scraperFile pokeFetched
    (RefreshResult.ok cd.summary, { st1 with cache := some cd })

/-! ## The combined route POST (`combined/route.ts` lines 252-349) -/

/-- Lines 280-298: a cached event serialized back into the response shape. -/
def cachedToLocal (e : CachedEvent) : LocalEvent :=
  { id := squashWs (e.source ++ "-" ++ e.shop ++ "-" ++ e.date)
    type := normalizeType e.type
    name := e.name
    date := e.date
    time := e.time
    city := e.city
    state := e.state
    country := e.country
    shop := e.shop
    address := e.address
    cost := ""
    registrationUrl := ""
    hasJuniors := true
    hasSeniors := true
    hasMasters := true
    distance := e.distance
    source := some e.source }

/-- Lines 272-298 (cache hit): re-filter the cached events against the
caller's origin and radius — but only events whose stored record carries
truthy coordinates; all others pass unfiltered, and the stored build-time
`distance` is returned as is. -/
def cacheHitEvents (dist : String → String → ℚ) (maxRadius : ℚ)
    (events : List CachedEvent) : List LocalEvent :=
  (events.filter (fun e =>
    match e.latitude, e.longitude with
    | some lat, some lng =>
      if lat = "" || lng = "" then true else decide (dist lat lng ≤ maxRadius)
    | _, _ => true)).map cachedToLocal

/-- Lines 320-333: the cache document written by the query path drops the
events' coordinates (`latitude`/`longitude` are not among the serialized
fields). -/
def localToCached (e : LocalEvent) : CachedEvent :=
  { source := jsOr e.source "pokedata.ovh"
    type := e.type
    name := e.name
    date := e.date
    displayDate := e.date
    time := e.time
    shop := e.shop
    address := e.address
    city := e.city
    state := e.state
    country := e.country
    distance := e.distance
    latitude := none
    longitude := none }

structure CombinedResponse where
  events : List LocalEvent
  total : Nat
  fromCache : Bool
deriving DecidableEq, Repr

/-- The POST handler of `combined/route.ts`: serve filtered cached events
while the cache is valid, otherwise rebuild, write the cache and serve the
fresh list. -/
def combinedPOST (now : Int) (dv : String → Option Int)
    (dist : String → String → ℚ) (userLat userLng maxRadius : ℚ)
    (cache : Option CacheData) (scraperFile : Option (List ScrapedEvent))
    (pokeFetched : List PokedataEvent) : CombinedResponse × Option CacheData :=
  match isCacheValid cache now, cache with
  | true, some c =>
    let evs := cacheHitEvents dist maxRadius c.events
    ({ events := evs, total := evs.length, fromCache := true }, some c)
  | _, _ =>
    let events := buildCombinedData dv dist maxRadius (scraperFile.getD []) pokeFetched
    let newCache : CacheData :=
      { lastUpdated := now
        lastScraperRun :=
          match cache with
          | some c => c.lastScraperRun
          | none => none
        location := { lat := userLat, lng := userLng, radius := maxRadius }
        summary := buildSummary events
        events := events.map localToCached }
    ({ events := events, total := events.length, fromCache := false }, some newCache)

end PokemonMetaTracker

namespace PokemonMetaTracker

/-! ## Generic properties of the seen-set insertion pattern -/

section DedupInsertLemmas

variable {α β : Type} (norm : α → Option (String × β)) (keyf : β → String)

theorem dedupInsert_seen_sub : ∀ (l : List α) (seen : List String),
    seen ⊆ (dedupInsert norm l seen).2 := by
  intro l
  induction l with
  | nil => intro seen x hx; exact hx
  | cons a as ih =>
    intro seen
    cases hn : norm a with
    | none => simpa [dedupInsert, hn] using ih seen
    | some kb =>
      obtain ⟨k, b⟩ := kb
      by_cases hk : k ∈ seen
      · simpa [dedupInsert, hn, hk] using ih seen
      · simp only [dedupInsert, hn, hk, if_neg, if_false]
        intro x hx
        exact ih (k :: seen) (List.mem_cons_of_mem _ hx)

theorem dedupInsert_mem_key
    (hkey : ∀ a k b, norm a = some (k, b) → keyf b = k) :
    ∀ (l : List α) (seen : List String) (b : β),
      b ∈ (dedupInsert norm l seen).1 →
      keyf b ∉ seen ∧ keyf b ∈ (dedupInsert norm l seen).2 := by
  intro l
  induction l with
  | nil => intro seen b hb; exact absurd hb (by simp [dedupInsert])
  | cons a as ih =>
    intro seen b hb
    cases hn : norm a with
    | none =>
      simp only [dedupInsert, hn] at hb ⊢
      exact ih seen b hb
    | some kb =>
      obtain ⟨k, c⟩ := kb
      by_cases hk : k ∈ seen
      · simp only [dedupInsert, hn] at hb ⊢
        rw [if_pos hk] at hb ⊢
        exact ih seen b hb
      · simp only [dedupInsert, hn] at hb ⊢
        rw [if_neg hk] at hb ⊢
        simp only [List.mem_cons] at hb
        rcases hb with rfl | hb
        · refine ⟨?_, ?_⟩
          · rw [hkey a k b hn]; exact hk
          · rw [hkey a k b hn]
            exact dedupInsert_seen_sub norm as (k :: seen) (List.mem_cons_self _ _)
        · obtain ⟨h1, h2⟩ := ih (k :: seen) b hb
          exact ⟨fun hmem => h1 (List.mem_cons_of_mem _ hmem), h2⟩

theorem dedupInsert_pairwise
    (hkey : ∀ a k b, norm a = some (k, b) → keyf b = k) :
    ∀ (l : List α) (seen : List String),
      (dedupInsert norm l seen).1.Pairwise (fun b c => keyf b ≠ keyf c) := by
  intro l
  induction l with
  | nil => intro seen; simp [dedupInsert]
  | cons a as ih =>
    intro seen
    cases hn : norm a with
    | none => simp only [dedupInsert, hn]; exact ih seen
    | some kb =>
      obtain ⟨k, c⟩ := kb
      by_cases hk : k ∈ seen
      · simp only [dedupInsert, hn]; rw [if_pos hk]; exact ih seen
      · simp only [dedupInsert, hn]
        rw [if_neg hk]
        refine List.Pairwise.cons ?_ (ih (k :: seen))
        intro b hb
        obtain ⟨h1, _⟩ := dedupInsert_mem_key norm keyf hkey as (k :: seen) b hb
        rw [hkey a k c hn]
        intro hEq
        exact h1 (hEq ▸ List.mem_cons_self _ _)

theorem dedupInsert_key_mem_final :
    ∀ (l : List α) (seen : List String) (a : α) (k : String) (b : β),
      a ∈ l → norm a = some (k, b) → k ∈ (dedupInsert norm l seen).2 := by
  intro l
  induction l with
  | nil => intro seen a k b ha; exact absurd ha (by simp)
  | cons x as ih =>
    intro seen a k b ha hn
    rcases List.mem_cons.mp ha with rfl | ha'
    · simp only [dedupInsert, hn]
      by_cases hk : k ∈ seen
      · rw [if_pos hk]
        exact dedupInsert_seen_sub norm as seen hk
      · rw [if_neg hk]
        exact dedupInsert_seen_sub norm as (k :: seen) (List.mem_cons_self _ _)
    · cases hx : norm x with
      | none => simp only [dedupInsert, hx]; exact ih seen a k b ha' hn
      | some kb =>
        obtain ⟨k', c⟩ := kb
        by_cases hk' : k' ∈ seen
        · simp only [dedupInsert, hx]; rw [if_pos hk']; exact ih seen a k b ha' hn
        · simp only [dedupInsert, hx]
          rw [if_neg hk']
          exact ih (k' :: seen) a k b ha' hn

theorem dedupInsert_exists_of_not_seen
    (hkey : ∀ a k b, norm a = some (k, b) → keyf b = k) :
    ∀ (l : List α) (seen : List String) (a : α) (k : String) (b : β),
      a ∈ l → norm a = some (k, b) → k ∉ seen →
      ∃ c ∈ (dedupInsert norm l seen).1, keyf c = k := by
  intro l
  induction l with
  | nil => intro seen a k b ha; exact absurd ha (by simp)
  | cons x as ih =>
    intro seen a k b ha hn hk
    cases hx : norm x with
    | none =>
      simp only [dedupInsert, hx]
      rcases List.mem_cons.mp ha with rfl | ha'
      · rw [hx] at hn; exact absurd hn (by simp)
      · exact ih seen a k b ha' hn hk
    | some kb =>
      obtain ⟨k', c⟩ := kb
      by_cases hk' : k' ∈ seen
      · simp only [dedupInsert, hx]
        rw [if_pos hk']
        rcases List.mem_cons.mp ha with rfl | ha'
        · rw [hx] at hn
          obtain ⟨rfl, rfl⟩ : k' = k ∧ c = b := by
            simpa [Prod.ext_iff] using hn
          exact absurd hk' hk
        · exact ih seen a k b ha' hn hk
      · simp only [dedupInsert, hx]
        rw [if_neg hk']
        by_cases hkk : k = k'
        · exact ⟨c, List.mem_cons_self _ _, by rw [hkey x k' c hx, hkk]⟩
        · rcases List.mem_cons.mp ha with rfl | ha'
          · rw [hx] at hn
            obtain ⟨rfl, rfl⟩ : k' = k ∧ c = b := by
              simpa [Prod.ext_iff] using hn
            exact absurd rfl hkk
          · obtain ⟨d, hd, hdk⟩ := ih (k' :: seen) a k b ha' hn
              (by simp [hkk, hk])
            exact ⟨d, List.mem_cons_of_mem _ hd, hdk⟩

theorem dedupInsert_provenance :
    ∀ (l : List α) (seen : List String) (b : β),
      b ∈ (dedupInsert norm l seen).1 →
      ∃ a ∈ l, ∃ k, norm a = some (k, b) := by
  intro l
  induction l with
  | nil => intro seen b hb; exact absurd hb (by simp [dedupInsert])
  | cons x as ih =>
    intro seen b hb
    cases hx : norm x with
    | none =>
      simp only [dedupInsert, hx] at hb
      obtain ⟨a, ha, hk⟩ := ih seen b hb
      exact ⟨a, List.mem_cons_of_mem _ ha, hk⟩
    | some kb =>
      obtain ⟨k', c⟩ := kb
      by_cases hk' : k' ∈ seen
      · simp only [dedupInsert, hx] at hb
        rw [if_pos hk'] at hb
        obtain ⟨a, ha, hk⟩ := ih seen b hb
        exact ⟨a, List.mem_cons_of_mem _ ha, hk⟩
      · simp only [dedupInsert, hx] at hb
        rw [if_neg hk'] at hb
        rcases List.mem_cons.mp hb with rfl | hb'
        · exact ⟨x, List.mem_cons_self _ _, k', hx⟩
        · obtain ⟨a, ha, hk⟩ := ih (k' :: seen) b hb'
          exact ⟨a, List.mem_cons_of_mem _ ha, hk⟩

end DedupInsertLemmas

/-! ## Permutation facts about the modelled sort -/

theorem insRev_perm {α : Type} (cmp : α → α → ℚ) (x : α) :
    ∀ r : List α, (insRev cmp x r).Perm (x :: r) := by
  intro r
  induction r with
  | nil => exact List.Perm.refl _
  | cons y r ih =>
    rw [insRev]
    by_cases h : cmp y x > 0
    · rw [if_pos h]
      exact (ih.cons y).trans (List.Perm.swap x y r)
    · rw [if_neg h]

theorem foldl_insRev_perm {α : Type} (cmp : α → α → ℚ) :
    ∀ (l racc : List α),
      (l.foldl (fun r x => insRev cmp x r) racc).Perm (racc ++ l) := by
  intro l
  induction l with
  | nil => intro racc; simp
  | cons x xs ih =>
    intro racc
    have h2 : (insRev cmp x racc ++ xs).Perm (racc ++ x :: xs) := by
      refine List.Perm.trans (List.Perm.append_right xs (insRev_perm cmp x racc)) ?_
      exact List.perm_middle.symm
    rw [List.foldl_cons]
    exact (ih (insRev cmp x racc)).trans h2

theorem jsSort_perm {α : Type} (cmp : α → α → ℚ) (l : List α) :
    (jsSort cmp l).Perm l := by
  unfold jsSort jsSortRev
  refine (List.reverse_perm _).trans ?_
  simpa using foldl_insRev_perm cmp l []

end PokemonMetaTracker

namespace PokemonMetaTracker

/-! ## Facts about the two normalization-to-event functions -/

theorem scraperNorm_key (a : ScrapedEvent) (k : String) (b : LocalEvent)
    (h : scraperNorm a = some (k, b)) : keyOf b = k := by
  unfold scraperNorm at h
  cases hp : parseScraperDate a.date with
  | none => rw [hp] at h; exact absurd h (by simp)
  | some nd =>
    rw [hp] at h
    simp only [Option.some.injEq, Prod.mk.injEq] at h
    obtain ⟨hk, hb⟩ := h
    subst hk
    subst hb
    rfl

theorem scraperNorm_source (a : ScrapedEvent) (k : String) (b : LocalEvent)
    (h : scraperNorm a = some (k, b)) : b.source = some "pokemon.com" := by
  unfold scraperNorm at h
  cases hp : parseScraperDate a.date with
  | none => rw [hp] at h; exact absurd h (by simp)
  | some nd =>
    rw [hp] at h
    simp only [Option.some.injEq, Prod.mk.injEq] at h
    obtain ⟨-, hb⟩ := h
    subst hb
    rfl

theorem scraperNorm_nodist (a : ScrapedEvent) (k : String) (b : LocalEvent)
    (h : scraperNorm a = some (k, b)) : b.distance = none := by
  unfold scraperNorm at h
  cases hp : parseScraperDate a.date with
  | none => rw [hp] at h; exact absurd h (by simp)
  | some nd =>
    rw [hp] at h
    simp only [Option.some.injEq, Prod.mk.injEq] at h
    obtain ⟨-, hb⟩ := h
    subst hb
    rfl

theorem pokeNorm_key (e : PokedataEvent) (k : String) (b : LocalEvent)
    (h : pokeNorm e = some (k, b)) : keyOf b = k := by
  unfold pokeNorm at h
  simp only [Option.some.injEq, Prod.mk.injEq] at h
  obtain ⟨hk, hb⟩ := h
  subst hk
  subst hb
  rfl

theorem pokeNorm_source (e : PokedataEvent) (k : String) (b : LocalEvent)
    (h : pokeNorm e = some (k, b)) : b.source = some "pokedata.ovh" := by
  unfold pokeNorm at h
  simp only [Option.some.injEq, Prod.mk.injEq] at h
  obtain ⟨-, hb⟩ := h
  subst hb
  rfl

theorem pokeNorm_dist (e : PokedataEvent) (k : String) (b : LocalEvent)
    (h : pokeNorm e = some (k, b)) : b.distance = e.distance := by
  unfold pokeNorm at h
  simp only [Option.some.injEq, Prod.mk.injEq] at h
  obtain ⟨-, hb⟩ := h
  subst hb
  rfl

theorem scraperNormR_key (a : ScrapedEvent) (k : String) (b : CachedEvent)
    (h : scraperNormR a = some (k, b)) : keyOfCached b = k := by
  unfold scraperNormR at h
  cases hp : parseScraperDate a.date with
  | none => rw [hp] at h; exact absurd h (by simp)
  | some nd =>
    rw [hp] at h
    simp only [Option.some.injEq, Prod.mk.injEq] at h
    obtain ⟨hk, hb⟩ := h
    subst hk
    subst hb
    rfl

theorem pokeNormR_key (e : PokedataEvent) (k : String) (b : CachedEvent)
    (h : pokeNormR e = some (k, b)) : keyOfCached b = k := by
  unfold pokeNormR at h
  simp only [Option.some.injEq, Prod.mk.injEq] at h
  obtain ⟨hk, hb⟩ := h
  subst hk
  subst hb
  rfl

theorem combinedPreSort_eq (dist : String → String → ℚ) (radius : ℚ)
    (se : List ScrapedEvent) (pe : List PokedataEvent) :
    combinedPreSort dist radius se pe =
      (dedupInsert scraperNorm se []).1 ++
      (dedupInsert pokeNorm (dedupPoke (pokeNearby dist radius pe) [])
        (dedupInsert scraperNorm se []).2).1 := rfl

theorem cachePreSort_eq (dist : String → String → ℚ)
    (se : List ScrapedEvent) (pe : List PokedataEvent) :
    cachePreSort dist se pe =
      (dedupInsert scraperNormR se []).1 ++
      (dedupInsert pokeNormR (dedupPoke (pokeNearby dist 100 pe) [])
        (dedupInsert scraperNormR se []).2).1 := rfl

theorem countP_eq_one_of_pairwise {γ : Type} (f : γ → String) (K : String)
    (l : List γ) (hp : l.Pairwise (fun a b => f a ≠ f b))
    (hex : ∃ c ∈ l, f c = K) :
    l.countP (fun x => decide (f x = K)) = 1 := by
  induction l with
  | nil => simp at hex
  | cons a l ih =>
    rw [List.countP_cons]
    by_cases ha : f a = K
    · have hz : l.countP (fun x => decide (f x = K)) = 0 := by
        rw [List.countP_eq_zero]
        intro b hb
        simp only [decide_eq_true_eq]
        have hne := (List.pairwise_cons.mp hp).1 b hb
        intro hbK
        exact hne (ha.trans hbK.symm)
      simp [hz, ha]
    · have hex' : ∃ c ∈ l, f c = K := by
        obtain ⟨c, hc, hcK⟩ := hex
        rcases List.mem_cons.mp hc with rfl | hc'
        · exact absurd hcK ha
        · exact ⟨c, hc', hcK⟩
      rw [ih (List.pairwise_cons.mp hp).2 hex']
      simp [ha]

theorem combinedPreSort_pairwise_keys (dist : String → String → ℚ) (radius : ℚ)
    (se : List ScrapedEvent) (pe : List PokedataEvent) :
    (combinedPreSort dist radius se pe).Pairwise
      (fun a b => keyOf a ≠ keyOf b) := by
  rw [combinedPreSort_eq]
  refine (List.pairwise_append).mpr
    ⟨dedupInsert_pairwise scraperNorm keyOf scraperNorm_key _ _,
     dedupInsert_pairwise pokeNorm keyOf pokeNorm_key _ _, ?_⟩
  intro a ha b hb hEq
  have h1 := (dedupInsert_mem_key scraperNorm keyOf scraperNorm_key _ _ a ha).2
  have h2 := (dedupInsert_mem_key pokeNorm keyOf pokeNorm_key _ _ b hb).1
  exact h2 (hEq ▸ h1)

theorem cachePreSort_pairwise_keys (dist : String → String → ℚ)
    (se : List ScrapedEvent) (pe : List PokedataEvent) :
    (cachePreSort dist se pe).Pairwise
      (fun a b => keyOfCached a ≠ keyOfCached b) := by
  rw [cachePreSort_eq]
  refine (List.pairwise_append).mpr
    ⟨dedupInsert_pairwise scraperNormR keyOfCached scraperNormR_key _ _,
     dedupInsert_pairwise pokeNormR keyOfCached pokeNormR_key _ _, ?_⟩
  intro a ha b hb hEq
  have h1 := (dedupInsert_mem_key scraperNormR keyOfCached scraperNormR_key _ _ a ha).2
  have h2 := (dedupInsert_mem_key pokeNormR keyOfCached pokeNormR_key _ _ b hb).1
  exact h2 (hEq ▸ h1)

end PokemonMetaTracker

namespace PokemonMetaTracker

/-! ## C1: scraper precedence on duplicate dedup keys -/

/-- C1: when a scraper record and a third-party record agree on normalized
date, normalized shop key and category, the merged output carries exactly
one event under that dedup key, and it is scraper-sourced (scraper events
are inserted first; third-party events whose key is already seen are
skipped). -/
theorem merged_single_event_scraper_wins
    (dv : String → Option Int) (dist : String → String → ℚ) (radius : ℚ)
    (se : List ScrapedEvent) (pe : List PokedataEvent)
    (s : ScrapedEvent) (t : PokedataEvent) (nd : String)
    (hs : s ∈ se) (ht : t ∈ pe)
    (hd : parseScraperDate s.date = some nd)
    (htd : t.date = nd)
    (hshop : normalizeShop t.shop = normalizeShop s.shop)
    (hty : normalizeType t.type = normalizeType s.type) :
    ((buildCombinedData dv dist radius se pe).countP
      (fun ev => decide (keyOf ev =
        nd ++ "-" ++ normalizeShop s.shop ++ "-" ++ normalizeType s.type))) = 1 ∧
    ∀ ev ∈ buildCombinedData dv dist radius se pe,
      keyOf ev = nd ++ "-" ++ normalizeShop s.shop ++ "-" ++ normalizeType s.type →
      ev.source = some "pokemon.com" := by
  have hperm := jsSort_perm (cmpEvents dv) (combinedPreSort dist radius se pe)
  have hnorm : scraperNorm s =
      some (nd ++ "-" ++ normalizeShop s.shop ++ "-" ++ normalizeType s.type,
        scraperToLocal s nd (normalizeType s.type)) := by
    unfold scraperNorm
    rw [hd]
  have hKmem : (nd ++ "-" ++ normalizeShop s.shop ++ "-" ++ normalizeType s.type) ∈
      (dedupInsert scraperNorm se []).2 :=
    dedupInsert_key_mem_final scraperNorm se [] s _ _ hs hnorm
  constructor
  · unfold buildCombinedData
    rw [hperm.countP_eq]
    rw [combinedPreSort_eq, List.countP_append]
    have hMem : ∃ c ∈ (dedupInsert scraperNorm se []).1,
        keyOf c = nd ++ "-" ++ normalizeShop s.shop ++ "-" ++ normalizeType s.type :=
      dedupInsert_exists_of_not_seen scraperNorm keyOf scraperNorm_key se [] s _ _
        hs hnorm (by simp)
    have h1 := countP_eq_one_of_pairwise keyOf
      (nd ++ "-" ++ normalizeShop s.shop ++ "-" ++ normalizeType s.type) _
      (dedupInsert_pairwise scraperNorm keyOf scraperNorm_key se []) hMem
    have h2 : (dedupInsert pokeNorm (dedupPoke (pokeNearby dist radius pe) [])
        (dedupInsert scraperNorm se []).2).1.countP
        (fun ev => decide (keyOf ev =
          nd ++ "-" ++ normalizeShop s.shop ++ "-" ++ normalizeType s.type)) = 0 := by
      rw [List.countP_eq_zero]
      intro b hb
      simp only [decide_eq_true_eq]
      intro hbK
      exact (dedupInsert_mem_key pokeNorm keyOf pokeNorm_key _ _ b hb).1 (hbK ▸ hKmem)
    rw [h1, h2]
  · intro ev hmem hkeyEq
    unfold buildCombinedData at hmem
    have hmem' : ev ∈ combinedPreSort dist radius se pe := hperm.mem_iff.mp hmem
    rw [combinedPreSort_eq] at hmem'
    rcases List.mem_append.mp hmem' with h | h
    · obtain ⟨a, _, k, hak⟩ := dedupInsert_provenance scraperNorm _ _ _ h
      exact scraperNorm_source a k ev hak
    · exact absurd (hkeyEq ▸ hKmem)
        (dedupInsert_mem_key pokeNorm keyOf pokeNorm_key _ _ ev h).1

def c1Scraped : ScrapedEvent :=
  { id := "", type := "League Cup", name := "Joe Cup",
    date := "Tuesday, January 13, 2026", time := "10:00",
    shop := "Joe's Cards", address := "340 Walnut St", city := "Redwood City",
    state := "CA", country := "US" }

def c1Poke : PokedataEvent :=
  { guid := some "g1", type := "League Cup", name := "Cup at Joes",
    date := "2026-01-13", whenAt := some "2026-01-13 17:30:00",
    shop := "JOES CARDS", city := some "Redwood City", state := some "CA",
    country := some "US", country_code := some "US",
    street_address := some "340 Walnut St", address := none, cost := some "10",
    pokemon_url := some "u", juniors := some "5", seniors := some "5",
    masters := some "5", latitude := some "37.5", longitude := some "-122.2",
    distance := none }

/-- Witness for `merged_single_event_scraper_wins` on the spec's concrete
scenario (radius 50, third-party event 8 miles out). -/
theorem merged_single_event_scraper_wins_witness :
    ((buildCombinedData (fun _ => some 0) (fun _ _ => 8) 50 [c1Scraped] [c1Poke]).countP
      (fun ev => decide (keyOf ev =
        "2026-01-13" ++ "-" ++ normalizeShop c1Scraped.shop ++ "-" ++
          normalizeType c1Scraped.type))) = 1 ∧
    ∀ ev ∈ buildCombinedData (fun _ => some 0) (fun _ _ => 8) 50 [c1Scraped] [c1Poke],
      keyOf ev = "2026-01-13" ++ "-" ++ normalizeShop c1Scraped.shop ++ "-" ++
          normalizeType c1Scraped.type →
      ev.source = some "pokemon.com" :=
  merged_single_event_scraper_wins (fun _ => some 0) (fun _ _ => 8) 50
    [c1Scraped] [c1Poke] c1Scraped c1Poke "2026-01-13"
    (List.mem_singleton.mpr rfl) (List.mem_singleton.mpr rfl)
    (by decide) (by decide) (by decide) (by decide)

/-! ## C4: no two distinct merged events share a dedup key -/

theorem keyOf_congr {a b : LocalEvent} (h1 : a.date = b.date)
    (h2 : normalizeShop a.shop = normalizeShop b.shop) (h3 : a.type = b.type) :
    keyOf a = keyOf b := by
  unfold keyOf
  rw [h1, h2, h3]

theorem keyOfCached_congr {a b : CachedEvent} (h1 : a.date = b.date)
    (h2 : normalizeShop a.shop = normalizeShop b.shop) (h3 : a.type = b.type) :
    keyOfCached a = keyOfCached b := by
  unfold keyOfCached
  rw [h1, h2, h3]

/-- C4: in every merged collection produced by a rebuild (the query path's
`buildCombinedData` and the refresh path's `buildCombinedCache`), no two
distinct events agree on normalized date, normalized shop key and
category. -/
theorem merged_dedup_key_unique
    (dv : String → Option Int) (dist : String → String → ℚ) (radius : ℚ)
    (now : Int) (cache : Option CacheData)
    (scraperFile : Option (List ScrapedEvent))
    (se : List ScrapedEvent) (pe : List PokedataEvent) :
    (buildCombinedData dv dist radius se pe).Pairwise
      (fun a b => ¬(a.date = b.date ∧ normalizeShop a.shop = normalizeShop b.shop ∧
        a.type = b.type)) ∧
    (buildCombinedCache now dv dist cache scraperFile pe).events.Pairwise
      (fun a b => ¬(a.date = b.date ∧ normalizeShop a.shop = normalizeShop b.shop ∧
        a.type = b.type)) := by
  constructor
  · have hsym : ∀ {x y : LocalEvent},
        ¬(x.date = y.date ∧ normalizeShop x.shop = normalizeShop y.shop ∧
          x.type = y.type) →
        ¬(y.date = x.date ∧ normalizeShop y.shop = normalizeShop x.shop ∧
          y.type = x.type) := by
      intro x y h hc
      exact h ⟨hc.1.symm, hc.2.1.symm, hc.2.2.symm⟩
    refine ((jsSort_perm (cmpEvents dv) _).pairwise_iff hsym).mpr ?_
    refine (combinedPreSort_pairwise_keys dist radius se pe).imp ?_
    intro a b hk hc
    exact hk (keyOf_congr hc.1 hc.2.1 hc.2.2)
  · have hsym : ∀ {x y : CachedEvent},
        ¬(x.date = y.date ∧ normalizeShop x.shop = normalizeShop y.shop ∧
          x.type = y.type) →
        ¬(y.date = x.date ∧ normalizeShop y.shop = normalizeShop x.shop ∧
          y.type = x.type) := by
      intro x y h hc
      exact h ⟨hc.1.symm, hc.2.1.symm, hc.2.2.symm⟩
    show (jsSort (cmpDateOnly dv) (cachePreSort dist (scraperFile.getD []) pe)).Pairwise _
    refine ((jsSort_perm (cmpDateOnly dv) _).pairwise_iff hsym).mpr ?_
    refine (cachePreSort_pairwise_keys dist (scraperFile.getD []) pe).imp ?_
    intro a b hk hc
    exact hk (keyOfCached_congr hc.1 hc.2.1 hc.2.2)

end PokemonMetaTracker

namespace PokemonMetaTracker

/-! ## C5: the distance filter -/

theorem pokeNearby_dist (dist : String → String → ℚ) (radius : ℚ)
    (pe : List PokedataEvent) :
    ∀ e ∈ pokeNearby dist radius pe, ∃ d, e.distance = some d ∧ d ≤ radius := by
  intro e he
  obtain ⟨a, _, ha⟩ := List.mem_filterMap.mp he
  cases hlat : a.latitude with
  | none => rw [hlat] at ha; exact absurd ha (by simp)
  | some lat =>
    cases hlng : a.longitude with
    | none => rw [hlat, hlng] at ha; exact absurd ha (by simp)
    | some lng =>
      rw [hlat, hlng] at ha
      simp only [] at ha
      by_cases hemp : lat = "" ∨ lng = ""
      · rw [if_pos (by simpa using hemp)] at ha
        exact absurd ha (by simp)
      · rw [if_neg (by simpa using hemp)] at ha
        by_cases hle : dist lat lng ≤ radius
        · rw [if_pos hle] at ha
          simp only [Option.some.injEq] at ha
          subst ha
          exact ⟨dist lat lng, rfl, hle⟩
        · rw [if_neg hle] at ha
          exact absurd ha (by simp)

theorem dedupPoke_sub : ∀ (l : List PokedataEvent) (seen : List String),
    ∀ e ∈ dedupPoke l seen, e ∈ l := by
  intro l
  induction l with
  | nil => intro seen e he; exact absurd he (by simp [dedupPoke])
  | cons a as ih =>
    intro seen e he
    rw [dedupPoke] at he
    by_cases hk : pokeKey a ∈ seen
    · rw [if_pos hk] at he
      exact List.mem_cons_of_mem _ (ih seen e he)
    · rw [if_neg hk] at he
      rcases List.mem_cons.mp he with rfl | he'
      · exact List.mem_cons_self _ _
      · exact List.mem_cons_of_mem _ (ih _ e he')

/-- C5 (amended): in a freshly built merged collection every
third-party-sourced event carries a `distance` within the caller's radius,
and the scraper-sourced events do not depend on the distance function or
radius at all (they are never distance-filtered).  (On cache hits the code
re-filters only cached records carrying coordinates; the cache written by
the query path strips coordinates, so those events bypass the filter — see
the counterexample.) -/
theorem buildCombinedData_distance_filter
    (dv dv' : String → Option Int) (dist dist' : String → String → ℚ)
    (radius radius' : ℚ)
    (se : List ScrapedEvent) (pe : List PokedataEvent) :
    (∀ ev ∈ buildCombinedData dv dist radius se pe,
      ev.source = some "pokedata.ovh" → ∃ d, ev.distance = some d ∧ d ≤ radius) ∧
    ((buildCombinedData dv dist radius se pe).filter
        (fun ev => decide (ev.source = some "pokemon.com"))).Perm
      ((buildCombinedData dv' dist' radius' se pe).filter
        (fun ev => decide (ev.source = some "pokemon.com"))) := by
  have hfilter : ∀ (dv₀ : String → Option Int) (dist₀ : String → String → ℚ)
      (radius₀ : ℚ),
      ((buildCombinedData dv₀ dist₀ radius₀ se pe).filter
        (fun ev => decide (ev.source = some "pokemon.com"))).Perm
        (dedupInsert scraperNorm se []).1 := by
    intro dv₀ dist₀ radius₀
    refine ((jsSort_perm (cmpEvents dv₀) _).filter _).trans ?_
    rw [combinedPreSort_eq, List.filter_append]
    have h1 : (dedupInsert scraperNorm se []).1.filter
        (fun ev => decide (ev.source = some "pokemon.com")) =
        (dedupInsert scraperNorm se []).1 := by
      rw [List.filter_eq_self]
      intro b hb
      obtain ⟨a, _, k, hak⟩ := dedupInsert_provenance scraperNorm _ _ _ hb
      simp [scraperNorm_source a k b hak]
    have h2 : (dedupInsert pokeNorm (dedupPoke (pokeNearby dist₀ radius₀ pe) [])
        (dedupInsert scraperNorm se []).2).1.filter
        (fun ev => decide (ev.source = some "pokemon.com")) = [] := by
      rw [List.filter_eq_nil_iff]
      intro b hb
      obtain ⟨a, _, k, hak⟩ := dedupInsert_provenance pokeNorm _ _ _ hb
      simp [pokeNorm_source a k b hak]
    rw [h1, h2, List.append_nil]
  constructor
  · intro ev hmem hsrc
    have hmem' : ev ∈ combinedPreSort dist radius se pe :=
      (jsSort_perm (cmpEvents dv) _).mem_iff.mp hmem
    rw [combinedPreSort_eq] at hmem'
    rcases List.mem_append.mp hmem' with h | h
    · obtain ⟨a, _, k, hak⟩ := dedupInsert_provenance scraperNorm _ _ _ h
      rw [scraperNorm_source a k ev hak] at hsrc
      exact absurd (Option.some.inj hsrc) (by decide)
    · obtain ⟨a, ha, k, hak⟩ := dedupInsert_provenance pokeNorm _ _ _ h
      have hd := pokeNorm_dist a k ev hak
      have ha' : a ∈ pokeNearby dist radius pe := dedupPoke_sub _ _ a ha
      obtain ⟨d, hd1, hd2⟩ := pokeNearby_dist dist radius pe a ha'
      exact ⟨d, hd ▸ hd1, hd2⟩
  · exact (hfilter dv dist radius).trans (hfilter dv' dist' radius').symm

def c5CachedFar : CachedEvent :=
  { source := "pokedata.ovh", type := "League Cup", name := "Far Cup",
    date := "2026-01-20", displayDate := "2026-01-20", time := "",
    shop := "FAR SHOP", address := "", city := "", state := "CA",
    country := "US", distance := some 80, latitude := none, longitude := none }

def c5Summary : CacheSummary :=
  { totalEvents := 1, fromScraper := 0, fromPokedata := 1, uniqueStores := 1 }

def c5Cache : CacheData :=
  { lastUpdated := 0, lastScraperRun := none,
    location := { lat := 37, lng := -122, radius := 100 },
    summary := c5Summary,
    events := [c5CachedFar] }

/-- C5 counterexample: a query with radius 50 against a valid cache (the
cache document the query path itself writes stores no coordinates) returns
a third-party-sourced event whose `distance` is 80 — the claim's bound
`distanceMiles ≤ radius` fails on the cache-hit path. -/
theorem combinedPOST_cacheHit_distance_cex :
    (combinedPOST 1000 (fun _ => some 0) (fun _ _ => 0) 37 (-122) 50
        (some c5Cache) none []).1.fromCache = true ∧
    cachedToLocal c5CachedFar ∈
      (combinedPOST 1000 (fun _ => some 0) (fun _ _ => 0) 37 (-122) 50
        (some c5Cache) none []).1.events ∧
    (cachedToLocal c5CachedFar).source = some "pokedata.ovh" ∧
    (cachedToLocal c5CachedFar).distance = some 80 ∧
    ¬((80 : ℚ) ≤ 50) := by
  refine ⟨rfl, ?_, rfl, rfl, by norm_num⟩
  rw [show (combinedPOST 1000 (fun _ => some 0) (fun _ _ => 0) 37 (-122) 50
      (some c5Cache) none []).1.events = [cachedToLocal c5CachedFar] from rfl]
  exact List.mem_singleton.mpr rfl

/-- Witness for `buildCombinedData_distance_filter` at the concrete
scenario of the spec (one third-party event 8 miles out, radius 50). -/
theorem buildCombinedData_distance_filter_witness :
    pokeToLocal { c1Poke with distance := some 8 } "League Cup" ∈
      buildCombinedData (fun _ => some 0) (fun _ _ => 8) 50 [] [c1Poke] ∧
    ∃ d, (pokeToLocal { c1Poke with distance := some 8 } "League Cup").distance
        = some d ∧ d ≤ 50 :=
  by
  have hmem : pokeToLocal { c1Poke with distance := some 8 } "League Cup" ∈
      buildCombinedData (fun _ => some 0) (fun _ _ => 8) 50 [] [c1Poke] := by
    rw [show buildCombinedData (fun _ => some 0) (fun _ _ => 8) 50 [] [c1Poke] =
      [pokeToLocal { c1Poke with distance := some 8 } "League Cup"] from rfl]
    exact List.mem_singleton.mpr rfl
  exact ⟨hmem,
    (buildCombinedData_distance_filter (fun _ => some 0) (fun _ => some 0)
      (fun _ _ => 8) (fun _ _ => 8) 50 50 [] [c1Poke]).1
      (pokeToLocal { c1Poke with distance := some 8 } "League Cup") hmem rfl⟩

end PokemonMetaTracker

namespace PokemonMetaTracker

/-! ## C9: cache validity window -/

def c9Doc : CacheData :=
  { lastUpdated := 0, lastScraperRun := none,
    location := { lat := 37, lng := -122, radius := 100 },
    summary := c5Summary, events := [] }

/-- C9: with a stored document, `isCacheValid` holds exactly when
`now - lastUpdated < 1 hour`; in particular it holds immediately after a
write stamping `lastUpdated` with the current time, and fails once
`now - lastUpdated` reaches the hour. -/
theorem isCacheValid_iff_ttl (c : CacheData) (now : Int) :
    (isCacheValid (some c) now = true ↔ now - c.lastUpdated < CACHE_TTL_MS) ∧
    isCacheValid (some { c with lastUpdated := now }) now = true ∧
    (∀ t : Int, t - c.lastUpdated ≥ CACHE_TTL_MS → isCacheValid (some c) t = false) := by
  refine ⟨?_, ?_, ?_⟩
  · unfold isCacheValid
    exact decide_eq_true_iff
  · unfold isCacheValid
    simp only [decide_eq_true_eq]
    unfold CACHE_TTL_MS
    omega
  · intro t ht
    unfold isCacheValid
    simp only [decide_eq_false_iff_not]
    omega

/-- Witness for `isCacheValid_iff_ttl`: valid at 30 minutes, invalid at 2
hours. -/
theorem isCacheValid_iff_ttl_witness :
    isCacheValid (some c9Doc) 1800000 = true ∧
    isCacheValid (some c9Doc) 7200000 = false :=
  ⟨(isCacheValid_iff_ttl c9Doc 1800000).1.mpr (by decide),
   (isCacheValid_iff_ttl c9Doc 7200000).2.2 7200000 (by decide)⟩

/-! ## C8: unauthorized administrative refresh has no side effects -/

/-- C8: when the shared-secret credential is absent or mismatched and the
designated development mode is off, both refresh handlers reject with
`unauthorized` and leave the state (cache document and scraper snapshot)
exactly as it was, so a subsequent read returns the prior document. -/
theorem refresh_unauthorized_no_side_effects
    (secret : Option String) (cronSecret : String) (now : Int)
    (dv : String → Option Int) (dist : String → String → ℚ)
    (st : RefreshState) (body : Option (List ScrapedEvent))
    (pokeFetched : List PokedataEvent)
    (h : secret ≠ some cronSecret) :
    refreshGET secret cronSecret false now dv dist st pokeFetched =
      (RefreshResult.unauthorized, st) ∧
    refreshPOST secret cronSecret false now dv dist st body pokeFetched =
      (RefreshResult.unauthorized, st) := by
  constructor
  · unfold refreshGET
    rw [if_pos ⟨h, by simp⟩]
  · unfold refreshPOST
    rw [if_pos ⟨h, by simp⟩]

/-- Witness for `refresh_unauthorized_no_side_effects` with a missing
secret against a non-empty prior state. -/
theorem refresh_unauthorized_no_side_effects_witness :
    refreshGET none "dev-secret" false 0 (fun _ => none) (fun _ _ => 0)
      ⟨some c9Doc, none⟩ [] = (RefreshResult.unauthorized, ⟨some c9Doc, none⟩) ∧
    refreshPOST none "dev-secret" false 0 (fun _ => none) (fun _ _ => 0)
      ⟨some c9Doc, none⟩ none [] =
      (RefreshResult.unauthorized, ⟨some c9Doc, none⟩) :=
  refresh_unauthorized_no_side_effects none "dev-secret" 0 (fun _ => none)
    (fun _ _ => 0) ⟨some c9Doc, none⟩ none [] (by simp)

/-! ## C3: the authorized refresh with a fresh batch -/

/-- C3 (amended): an authorized refresh POST that carries a freshly-scraped
batch persists the batch via the snapshot store and rebuilds the combined
cache unconditionally — the handler never consults `isCacheValid`, so the
new document is stamped `lastUpdated := now` for every prior state, valid
cache or not.  `lastScraperRun`, however, is not updated: the rebuilt
document carries the prior document's value forward
(`existingCache?.lastScraperRun || null`). -/
theorem refreshPOST_persists_and_rebuilds
    (cronSecret : String) (now : Int) (dv : String → Option Int)
    (dist : String → String → ℚ) (st : RefreshState)
    (batch : List ScrapedEvent) (pokeFetched : List PokedataEvent) :
    (refreshPOST (some cronSecret) cronSecret false now dv dist st
        (some batch) pokeFetched).2.scraperFile = some batch ∧
    (refreshPOST (some cronSecret) cronSecret false now dv dist st
        (some batch) pokeFetched).2.cache =
      some (buildCombinedCache now dv dist st.cache (some batch) pokeFetched) ∧
    (refreshPOST (some cronSecret) cronSecret false now dv dist st
        (some batch) pokeFetched).1 =
      RefreshResult.ok
        (buildCombinedCache now dv dist st.cache (some batch) pokeFetched).summary ∧
    (buildCombinedCache now dv dist st.cache (some batch) pokeFetched).lastUpdated
      = now ∧
    (buildCombinedCache now dv dist st.cache (some batch) pokeFetched).lastScraperRun
      = (match st.cache with | some c => c.lastScraperRun | none => none) := by
  have hcond : ¬(some cronSecret ≠ some cronSecret ∧ ¬false) := by simp
  refine ⟨?_, ?_, ?_, rfl, rfl⟩ <;> (unfold refreshPOST; rw [if_neg hcond]) <;> rfl

def c3PriorCache : CacheData := { c9Doc with lastScraperRun := some 555 }

/-- C3 counterexample: the refresh operation does not update
`lastScraperRun` — after an authorized refresh POST at time 999999 that
persists a batch, a prior value 555 is carried forward unchanged, and a
prior missing value stays missing; neither becomes the refresh time. -/
theorem refreshPOST_lastScraperRun_cex :
    ((refreshPOST (some "dev-secret") "dev-secret" false 999999 (fun _ => none)
      (fun _ _ => 0) ⟨some c3PriorCache, none⟩ (some [c1Scraped]) []).2.cache.map
        (fun c => c.lastScraperRun)) = some (some 555) ∧
    ((refreshPOST (some "dev-secret") "dev-secret" false 999999 (fun _ => none)
      (fun _ _ => 0) ⟨none, none⟩ (some [c1Scraped]) []).2.cache.map
        (fun c => c.lastScraperRun)) = some none ∧
    (555 : Int) ≠ 999999 :=
  ⟨rfl, rfl, by decide⟩

end PokemonMetaTracker

namespace PokemonMetaTracker

/-! ## C6: order of the merged collection

The comparator is not a consistent total preorder (a distance-less event
compares equal to every event of its date), so the sorted order is pinned
down by the stable insertion model together with the shape of the merged
list: every distance-less (scraper) event precedes every distance-carrying
(pokedata) event before the sort. -/

def evDate (dv : String → Option Int) (e : LocalEvent) : Int :=
  (dv e.date).getD 0

/-- What C6 asserts of the final order: dates ascend, and equal-date events
that both carry a distance ascend by distance. -/
def sortedRel (dv : String → Option Int) (p q : LocalEvent) : Prop :=
  evDate dv p ≤ evDate dv q ∧
  (evDate dv p = evDate dv q →
    ∀ dp dq, p.distance = some dp → q.distance = some dq → dp ≤ dq)

/-- The sort invariant: `sortedRel` strengthened with "no distance-carrying
event precedes an equal-date distance-less one", which is what survives
insertion when the distance-less events all enter first. -/
def invRel (dv : String → Option Int) (p q : LocalEvent) : Prop :=
  evDate dv p ≤ evDate dv q ∧
  (evDate dv p = evDate dv q →
    ¬(p.distance.isSome = true ∧ q.distance = none) ∧
    ∀ dp dq, p.distance = some dp → q.distance = some dq → dp ≤ dq)

theorem invRel_of_cmp_pos (dv : String → Option Int) (y x : LocalEvent)
    (hy : (dv y.date).isSome = true) (hx : (dv x.date).isSome = true)
    (h : cmpEvents dv y x > 0) : invRel dv x y := by
  obtain ⟨a, ha⟩ := Option.isSome_iff_exists.mp hy
  obtain ⟨b, hb⟩ := Option.isSome_iff_exists.mp hx
  unfold cmpEvents at h
  rw [ha, hb] at h
  simp only [] at h
  unfold invRel evDate
  rw [ha, hb]
  by_cases hne : a - b ≠ 0
  · rw [if_pos hne] at h
    have hba : b < a := by
      have : (0 : ℚ) < ((a - b : Int) : ℚ) := h
      have := Int.cast_pos.mp this
      omega
    exact ⟨le_of_lt hba, fun hEq => absurd hEq (by simp; omega)⟩
  · rw [if_neg hne] at h
    have hab : a = b := by omega
    refine ⟨le_of_eq hab.symm, fun _ => ?_⟩
    cases hyd : y.distance with
    | none =>
      rw [hyd] at h
      cases hxd : x.distance with
      | none => rw [hxd] at h; exact absurd h (by norm_num)
      | some dx => rw [hxd] at h; exact absurd h (by norm_num)
    | some dy =>
      rw [hyd] at h
      cases hxd : x.distance with
      | none => rw [hxd] at h; exact absurd h (by norm_num)
      | some dx =>
        rw [hxd] at h
        have hlt : dx < dy := by linarith [sub_pos.mp h]
        refine ⟨by simp [hyd], ?_⟩
        intro dp dq hdp hdq
        obtain rfl : dx = dp := Option.some.inj hdp
        obtain rfl : dy = dq := Option.some.inj hdq
        exact le_of_lt hlt

theorem invRel_of_cmp_nonpos (dv : String → Option Int) (y x : LocalEvent)
    (hy : (dv y.date).isSome = true) (hx : (dv x.date).isSome = true)
    (hside : x.distance.isSome = true ∨ y.distance = none)
    (h : ¬cmpEvents dv y x > 0) : invRel dv y x := by
  obtain ⟨a, ha⟩ := Option.isSome_iff_exists.mp hy
  obtain ⟨b, hb⟩ := Option.isSome_iff_exists.mp hx
  unfold cmpEvents at h
  rw [ha, hb] at h
  simp only [] at h
  unfold invRel evDate
  rw [ha, hb]
  by_cases hne : a - b ≠ 0
  · rw [if_pos hne] at h
    have hab : a < b := by
      have h' : ((a - b : Int) : ℚ) ≤ 0 := le_of_not_lt h
      have := Int.cast_nonpos.mp h'
      omega
    exact ⟨le_of_lt hab, fun hEq => absurd hEq (by simp; omega)⟩
  · have hab : a = b := by omega
    refine ⟨le_of_eq hab, fun _ => ?_⟩
    cases hyd : y.distance with
    | none => exact ⟨by simp, fun dp dq hdp _ => absurd hdp (by simp)⟩
    | some dy =>
      cases hxd : x.distance with
      | none =>
        rcases hside with hs | hs
        · rw [hxd] at hs; exact absurd hs (by simp)
        · rw [hyd] at hs; exact absurd hs (by simp)
      | some dx =>
        rw [if_neg hne, hyd, hxd] at h
        simp only [] at h
        have hle : dy ≤ dx := by linarith [le_of_not_lt h]
        refine ⟨by simp, ?_⟩
        intro dp dq hdp hdq
        obtain rfl : dy = dp := Option.some.inj hdp
        obtain rfl : dx = dq := Option.some.inj hdq
        exact hle

end PokemonMetaTracker

namespace PokemonMetaTracker

/-- Inserting an element into the reversed prefix preserves the pairwise
invariant, provided the new element carries a distance or the prefix is
entirely distance-less (the shape the merge guarantees). -/
theorem insRev_inv (dv : String → Option Int) (x : LocalEvent) :
    ∀ r : List LocalEvent,
      (dv x.date).isSome = true →
      (∀ y ∈ r, (dv y.date).isSome = true) →
      (x.distance.isSome = true ∨ ∀ y ∈ r, y.distance = none) →
      r.Pairwise (fun a b => invRel dv b a) →
      (insRev (cmpEvents dv) x r).Pairwise (fun a b => invRel dv b a) := by
  intro r
  induction r with
  | nil =>
    intro _ _ _ _
    simp [insRev]
  | cons y r ih =>
    intro hx hr hphase hp
    have hy := hr y (List.mem_cons_self _ _)
    rw [insRev]
    by_cases hcmp : cmpEvents dv y x > 0
    · rw [if_pos hcmp]
      refine List.Pairwise.cons ?_
        (ih hx (fun z hz => hr z (List.mem_cons_of_mem _ hz)) ?_
          (List.pairwise_cons.mp hp).2)
      · intro z hz
        rcases List.mem_cons.mp ((insRev_perm (cmpEvents dv) x r).mem_iff.mp hz) with
          rfl | hzr
        · exact invRel_of_cmp_pos dv y z hy hx hcmp
        · exact (List.pairwise_cons.mp hp).1 z hzr
      · rcases hphase with h | h
        · exact Or.inl h
        · exact Or.inr (fun z hz => h z (List.mem_cons_of_mem _ hz))
    · rw [if_neg hcmp]
      have hside : x.distance.isSome = true ∨ y.distance = none := by
        rcases hphase with h | h
        · exact Or.inl h
        · exact Or.inr (h y (List.mem_cons_self _ _))
      have hyx : invRel dv y x := invRel_of_cmp_nonpos dv y x hy hx hside hcmp
      refine List.Pairwise.cons ?_ hp
      intro z hz
      rcases List.mem_cons.mp hz with rfl | hzr
      · exact hyx
      · have hzy : invRel dv z y := (List.pairwise_cons.mp hp).1 z hzr
        refine ⟨le_trans hzy.1 hyx.1, ?_⟩
        intro hEq
        have hzyEq : evDate dv z = evDate dv y :=
          le_antisymm hzy.1 (le_trans hyx.1 (le_of_eq hEq.symm))
        have hyxEq : evDate dv y = evDate dv x :=
          le_antisymm hyx.1 (le_trans (le_of_eq hEq.symm) hzy.1)
        constructor
        · rintro ⟨hzs, hxn⟩
          rcases hphase with hph | hph
          · rw [hxn] at hph
            exact absurd hph (by simp)
          · have hzn := hph z (List.mem_cons_of_mem _ hzr)
            rw [hzn] at hzs
            exact absurd hzs (by simp)
        · intro dp dq hdp hdq
          cases hydist : y.distance with
          | some dy2 =>
            exact le_trans ((hzy.2 hzyEq).2 dp dy2 hdp hydist)
              ((hyx.2 hyxEq).2 dy2 dq hydist hdq)
          | none =>
            exact absurd ⟨by simp [hdp], hydist⟩ (hzy.2 hzyEq).1

end PokemonMetaTracker

namespace PokemonMetaTracker

theorem foldl_inv_nodist (dv : String → Option Int) :
    ∀ (l racc : List LocalEvent),
      (∀ e ∈ l, (dv e.date).isSome = true ∧ e.distance = none) →
      (∀ y ∈ racc, (dv y.date).isSome = true ∧ y.distance = none) →
      racc.Pairwise (fun a b => invRel dv b a) →
      (∀ y ∈ l.foldl (fun r x => insRev (cmpEvents dv) x r) racc,
        (dv y.date).isSome = true ∧ y.distance = none) ∧
      (l.foldl (fun r x => insRev (cmpEvents dv) x r) racc).Pairwise
        (fun a b => invRel dv b a) := by
  intro l
  induction l with
  | nil => intro racc _ hracc hp; exact ⟨hracc, hp⟩
  | cons x xs ih =>
    intro racc hl hracc hp
    rw [List.foldl_cons]
    have hx := hl x (List.mem_cons_self _ _)
    have hracc' : ∀ y ∈ insRev (cmpEvents dv) x racc,
        (dv y.date).isSome = true ∧ y.distance = none := by
      intro y hy
      rcases List.mem_cons.mp ((insRev_perm _ x racc).mem_iff.mp hy) with rfl | h
      · exact hx
      · exact hracc y h
    refine ih (insRev (cmpEvents dv) x racc)
      (fun e he => hl e (List.mem_cons_of_mem _ he)) hracc' ?_
    exact insRev_inv dv x racc hx.1 (fun y hy => (hracc y hy).1)
      (Or.inr (fun y hy => (hracc y hy).2)) hp

theorem foldl_inv_withdist (dv : String → Option Int) :
    ∀ (l racc : List LocalEvent),
      (∀ e ∈ l, (dv e.date).isSome = true ∧ e.distance.isSome = true) →
      (∀ y ∈ racc, (dv y.date).isSome = true) →
      racc.Pairwise (fun a b => invRel dv b a) →
      (l.foldl (fun r x => insRev (cmpEvents dv) x r) racc).Pairwise
        (fun a b => invRel dv b a) := by
  intro l
  induction l with
  | nil => intro racc _ _ hp; exact hp
  | cons x xs ih =>
    intro racc hl hracc hp
    rw [List.foldl_cons]
    have hx := hl x (List.mem_cons_self _ _)
    have hracc' : ∀ y ∈ insRev (cmpEvents dv) x racc,
        (dv y.date).isSome = true := by
      intro y hy
      rcases List.mem_cons.mp ((insRev_perm _ x racc).mem_iff.mp hy) with rfl | h
      · exact hx.1
      · exact hracc y h
    refine ih (insRev (cmpEvents dv) x racc)
      (fun e he => hl e (List.mem_cons_of_mem _ he)) hracc' ?_
    exact insRev_inv dv x racc hx.1 hracc (Or.inl hx.2) hp

/-! ## Stability of the modelled sort -/

theorem insRev_split {α : Type} (cmp : α → α → ℚ) (x : α) :
    ∀ r : List α, ∃ r1 r2, r = r1 ++ r2 ∧
      insRev cmp x r = r1 ++ x :: r2 ∧ ∀ y ∈ r1, cmp y x > 0 := by
  intro r
  induction r with
  | nil => exact ⟨[], [], rfl, rfl, by simp⟩
  | cons y r ih =>
    by_cases h : cmp y x > 0
    · obtain ⟨r1, r2, he, hi, hc⟩ := ih
      refine ⟨y :: r1, r2, by rw [List.cons_append, ← he], ?_, ?_⟩
      · rw [insRev, if_pos h, hi, List.cons_append]
      · intro z hz
        rcases List.mem_cons.mp hz with rfl | hz'
        · exact h
        · exact hc z hz'
    · exact ⟨[], y :: r, rfl, by rw [insRev, if_neg h]; rfl, by simp⟩

theorem foldl_stable {α : Type} (cmp : α → α → ℚ) :
    ∀ (l w racc : List α),
      (∀ p q, cmp p q = 0 → List.Sublist [p, q] w → List.Sublist [q, p] racc) →
      (∀ p ∈ w, p ∈ racc) →
      (∀ p q, cmp p q = 0 → List.Sublist [p, q] (w ++ l) →
        List.Sublist [q, p] (l.foldl (fun r x => insRev cmp x r) racc)) := by
  intro l
  induction l with
  | nil =>
    intro w racc hst hmem p q hcmp hs
    exact hst p q hcmp (by simpa using hs)
  | cons x xs ih =>
    intro w racc hst hmem
    obtain ⟨r1, r2, hr, hi, hr1⟩ := insRev_split cmp x racc
    have hsup : List.Sublist racc (insRev cmp x racc) := by
      rw [hi, hr]
      exact List.Sublist.append (List.Sublist.refl r1) (List.sublist_cons_self x r2)
    have hstok : ∀ p q, cmp p q = 0 → List.Sublist [p, q] (w ++ [x]) →
        List.Sublist [q, p] (insRev cmp x racc) := by
      intro p q hcmp hs
      obtain ⟨l1, l2, heq, h1, h2⟩ := List.sublist_append_iff.mp hs
      rcases List.sublist_singleton.mp h2 with rfl | rfl
      · rw [List.append_nil] at heq
        subst heq
        exact (hst p q hcmp h1).trans hsup
      · have hl1 : l1 = [p] ∧ q = x := by
          cases l1 with
          | nil => simp at heq
          | cons a l1' =>
            cases l1' with
            | nil =>
              simp only [List.cons_append, List.nil_append, List.cons.injEq] at heq
              exact ⟨by rw [heq.1], heq.2.1⟩
            | cons b l1'' => simp at heq
        obtain ⟨rfl, rfl⟩ := hl1
        have hpw : p ∈ w := List.singleton_sublist.mp h1
        have hpr : p ∈ racc := hmem p hpw
        rw [hr] at hpr
        rcases List.mem_append.mp hpr with hp1 | hp2
        · exact absurd hcmp (by have := hr1 p hp1; intro hEq; rw [hEq] at this; linarith)
        · rw [hi]
          refine List.Sublist.trans ?_ (List.sublist_append_right r1 (q :: r2))
          exact (List.singleton_sublist.mpr hp2).cons₂ q
    have hmem' : ∀ p ∈ w ++ [x], p ∈ insRev cmp x racc := by
      intro p hp
      rw [(insRev_perm cmp x racc).mem_iff]
      rcases List.mem_append.mp hp with h | h
      · exact List.mem_cons_of_mem _ (hmem p h)
      · rcases List.mem_singleton.mp h with rfl
        exact List.mem_cons_self _ _
    intro p q hcmp hs
    rw [List.foldl_cons]
    refine ih (w ++ [x]) (insRev cmp x racc) hstok hmem' p q hcmp ?_
    rw [List.append_assoc]
    simpa using hs

end PokemonMetaTracker

namespace PokemonMetaTracker

theorem scraperPart_nodist (se : List ScrapedEvent) :
    ∀ e ∈ (dedupInsert scraperNorm se []).1, e.distance = none := by
  intro e he
  obtain ⟨a, _, k, hak⟩ := dedupInsert_provenance scraperNorm _ _ _ he
  exact scraperNorm_nodist a k e hak

theorem pokePart_withdist (dist : String → String → ℚ) (radius : ℚ)
    (se : List ScrapedEvent) (pe : List PokedataEvent) :
    ∀ e ∈ (dedupInsert pokeNorm (dedupPoke (pokeNearby dist radius pe) [])
      (dedupInsert scraperNorm se []).2).1, e.distance.isSome = true := by
  intro e he
  obtain ⟨a, ha, k, hak⟩ := dedupInsert_provenance pokeNorm _ _ _ he
  have hd := pokeNorm_dist a k e hak
  obtain ⟨d, hd1, -⟩ := pokeNearby_dist dist radius pe a (dedupPoke_sub _ _ a ha)
  rw [hd, hd1]
  rfl

/-- The sort guarantee, generically: for the comparator of lines 228-235
applied to any list in which every distance-less event precedes every
distance-carrying one (the shape every merge in the repository produces
pre-sort, including the `route.ts` POST list after its distance filter)
and every date is recognized by the date parser, the stable sort yields an
order that ascends by date, breaks equal-date ties among
distance-carrying events by ascending distance, and keeps comparator-equal
events in their insertion order. -/
theorem jsSort_sorted_of_shape (dv : String → Option Int)
    (s p : List LocalEvent)
    (hs : ∀ e ∈ s, e.distance = none)
    (hp : ∀ e ∈ p, e.distance.isSome = true)
    (hdates : ∀ e ∈ s ++ p, (dv e.date).isSome = true) :
    (jsSort (cmpEvents dv) (s ++ p)).Pairwise (sortedRel dv) ∧
    (∀ a b : LocalEvent, cmpEvents dv a b = 0 →
      List.Sublist [a, b] (s ++ p) →
      List.Sublist [a, b] (jsSort (cmpEvents dv) (s ++ p))) := by
  constructor
  · unfold jsSort jsSortRev
    rw [List.pairwise_reverse, List.foldl_append]
    have h0 := foldl_inv_nodist dv s []
      (fun e he => ⟨hdates e (List.mem_append_left _ he), hs e he⟩)
      (by simp) (by simp)
    have h1 := foldl_inv_withdist dv p _
      (fun e he => ⟨hdates e (List.mem_append_right _ he), hp e he⟩)
      (fun y hy => (h0.1 y hy).1) h0.2
    refine h1.imp ?_
    intro a b hinv
    exact ⟨hinv.1, fun hEq => (hinv.2 hEq).2⟩
  · intro a b hcmp hsub
    unfold jsSort jsSortRev
    have hst := foldl_stable (cmpEvents dv) (s ++ p) [] []
      (by intro p' q' _ hsub'; simp at hsub') (by simp) a b hcmp
      (by simpa using hsub)
    simpa using hst.reverse

/-- C6 (amended): provided every merged event's date is recognized by the
date parser (`new Date(...)` not NaN — see the counterexample for what
happens otherwise), the merged collection is sorted ascending by date;
among equal-date events that both carry a `distance`, the smaller distance
comes first; and the sort is stable: comparator-equal events keep their
pre-sort insertion order.  The final conjunct states the same guarantee
generically for every sort site using this comparator on a
distance-less-then-distance-carrying list, which is the shape the
`route.ts` POST list also has after its distance filter. -/
theorem merged_sorted_by_date_then_distance
    (dv : String → Option Int) (dist : String → String → ℚ) (radius : ℚ)
    (se : List ScrapedEvent) (pe : List PokedataEvent)
    (hdates : ∀ ev ∈ buildCombinedData dv dist radius se pe,
      (dv ev.date).isSome = true) :
    (buildCombinedData dv dist radius se pe).Pairwise (sortedRel dv) ∧
    (∀ p q : LocalEvent, cmpEvents dv p q = 0 →
      List.Sublist [p, q] (combinedPreSort dist radius se pe) →
      List.Sublist [p, q] (buildCombinedData dv dist radius se pe)) ∧
    (∀ s' p' : List LocalEvent,
      (∀ e ∈ s', e.distance = none) →
      (∀ e ∈ p', e.distance.isSome = true) →
      (∀ e ∈ s' ++ p', (dv e.date).isSome = true) →
      (jsSort (cmpEvents dv) (s' ++ p')).Pairwise (sortedRel dv) ∧
      (∀ a b : LocalEvent, cmpEvents dv a b = 0 →
        List.Sublist [a, b] (s' ++ p') →
        List.Sublist [a, b] (jsSort (cmpEvents dv) (s' ++ p')))) := by
  have hdates' : ∀ ev ∈ combinedPreSort dist radius se pe,
      (dv ev.date).isSome = true := by
    intro ev hev
    exact hdates ev ((jsSort_perm (cmpEvents dv) _).mem_iff.mpr hev)
  have hshape := jsSort_sorted_of_shape dv (dedupInsert scraperNorm se []).1
    (dedupInsert pokeNorm (dedupPoke (pokeNearby dist radius pe) [])
      (dedupInsert scraperNorm se []).2).1
    (scraperPart_nodist se) (pokePart_withdist dist radius se pe)
    (by rw [← combinedPreSort_eq]; exact hdates')
  refine ⟨?_, ?_, fun s' p' hs hp hd => jsSort_sorted_of_shape dv s' p' hs hp hd⟩
  · unfold buildCombinedData
    rw [combinedPreSort_eq]
    exact hshape.1
  · intro p q hcmp hsub
    unfold buildCombinedData
    rw [combinedPreSort_eq] at hsub ⊢
    exact hshape.2 p q hcmp hsub

/-- A date valuation that is total, for the witness. -/
def dv0 : String → Option Int := fun s => some (s.length : Int)

/-- Witness for `merged_sorted_by_date_then_distance`: the date hypothesis
holds for a total valuation on the concrete merge of the spec scenario. -/
theorem merged_sorted_by_date_then_distance_witness :
    (∀ ev ∈ buildCombinedData dv0 (fun _ _ => 8) 50 [c1Scraped] [c1Poke],
      (dv0 ev.date).isSome = true) ∧
    (buildCombinedData dv0 (fun _ _ => 8) 50 [c1Scraped] [c1Poke]).Pairwise
      (sortedRel dv0) := by
  have hd : ∀ ev ∈ buildCombinedData dv0 (fun _ _ => 8) 50 [c1Scraped] [c1Poke],
      (dv0 ev.date).isSome = true := fun ev _ => rfl
  exact ⟨hd, (merged_sorted_by_date_then_distance dv0 (fun _ _ => 8) 50
    [c1Scraped] [c1Poke] hd).1⟩

end PokemonMetaTracker

namespace PokemonMetaTracker

/-- Witness for `refreshPOST_persists_and_rebuilds` at a concrete state. -/
theorem refreshPOST_persists_and_rebuilds_witness :
    (refreshPOST (some "dev-secret") "dev-secret" false 42 (fun _ => none)
        (fun _ _ => 0) ⟨some c9Doc, none⟩ (some [c1Scraped]) []).2.scraperFile
      = some [c1Scraped] ∧
    (buildCombinedCache 42 (fun _ => none) (fun _ _ => 0) (some c9Doc)
        (some [c1Scraped]) []).lastUpdated = 42 :=
  ⟨(refreshPOST_persists_and_rebuilds "dev-secret" 42 (fun _ => none)
      (fun _ _ => 0) ⟨some c9Doc, none⟩ [c1Scraped] []).1,
   (refreshPOST_persists_and_rebuilds "dev-secret" 42 (fun _ => none)
      (fun _ _ => 0) ⟨some c9Doc, none⟩ [c1Scraped] []).2.2.2.1⟩

/-- Witness for `merged_dedup_key_unique` at a concrete merge. -/
theorem merged_dedup_key_unique_witness :
    (buildCombinedData (fun _ => some 0) (fun _ _ => 8) 50 [c1Scraped]
      [c1Poke]).Pairwise
      (fun a b => ¬(a.date = b.date ∧ normalizeShop a.shop = normalizeShop b.shop ∧
        a.type = b.type)) :=
  (merged_dedup_key_unique (fun _ => some 0) (fun _ _ => 8) 50 0 none none
    [c1Scraped] [c1Poke]).1

/-- Witness for `normalizeShop_alnum_short_idem` at a concrete shop name. -/
theorem normalizeShop_alnum_short_idem_witness :
    (∀ c ∈ (normalizeShop "Joe's Cards").data, isShopChar c = true) ∧
    (normalizeShop "Joe's Cards").length ≤ 15 ∧
    normalizeShop (normalizeShop "Joe's Cards") = normalizeShop "Joe's Cards" :=
  normalizeShop_alnum_short_idem "Joe's Cards"

end PokemonMetaTracker

namespace PokemonMetaTracker

def c6Feb : ScrapedEvent :=
  { id := "f", type := "League Cup", name := "Feb Cup",
    date := "February 1, 2026", time := "", shop := "SHOP A",
    address := "", city := "", state := "", country := "" }

def c6Und : ScrapedEvent :=
  { id := "u", type := "League Cup", name := "Shouty Cup",
    date := "JANUARY 13, 2026", time := "", shop := "SHOP B",
    address := "", city := "", state := "", country := "" }

def c6Jan : ScrapedEvent :=
  { id := "j", type := "League Cup", name := "Jan Cup",
    date := "January 1, 2026", time := "", shop := "SHOP C",
    address := "", city := "", state := "", country := "" }

/-- `new Date(d).getTime()` on the three dates of the counterexample:
the valid ISO dates get their (scaled) epoch values, in particular
February 1 after January 1, and the invalid `2026-undefined-13` gives
NaN, i.e. `none`. -/
def dvCex : String → Option Int := fun s =>
  if s = "2026-01-01" then some 0
  else if s = "2026-02-01" then some 31
  else none

/-- C6 counterexample: the claim's "sorted in ascending order by date" is
false of the code as stated.  `parseScraperDate` returns the non-null
`2026-undefined-13` for the scraper date `JANUARY 13, 2026`, so the record
enters the merge; the comparator yields NaN against it (treated as 0 by
the sort), the stable sort never compares its two neighbours directly, and
the merged collection comes out with the February 1 event before the
January 1 event. -/
theorem merged_sort_unparseable_date_cex :
    parseScraperDate "JANUARY 13, 2026" = some "2026-undefined-13" ∧
    ((buildCombinedData dvCex (fun _ _ => 0) 50 [c6Feb, c6Und, c6Jan] []).map
      (fun e => e.date)) = ["2026-02-01", "2026-undefined-13", "2026-01-01"] ∧
    dvCex "2026-02-01" = some 31 ∧ dvCex "2026-01-01" = some 0 ∧
    ¬ (buildCombinedData dvCex (fun _ _ => 0) 50 [c6Feb, c6Und, c6Jan] []).Pairwise
        (fun a b => evDate dvCex a ≤ evDate dvCex b) := by
  refine ⟨by decide, rfl, rfl, rfl, ?_⟩
  intro hpair
  rw [show buildCombinedData dvCex (fun _ _ => 0) 50 [c6Feb, c6Und, c6Jan] [] =
      [scraperToLocal c6Feb "2026-02-01" "League Cup",
       scraperToLocal c6Und "2026-undefined-13" "League Cup",
       scraperToLocal c6Jan "2026-01-01" "League Cup"] from rfl] at hpair
  have hrel := (List.pairwise_cons.mp hpair).1
    (scraperToLocal c6Jan "2026-01-01" "League Cup") (by simp)
  exact absurd hrel (by decide)

end PokemonMetaTracker
